import Mathlib

/- Verification development for the Beautiful Katamari entity editor
   (kata.py and d04Injector.py).

   Texts and file contents are modelled as lists of characters.  The
   tools read the .dat archive as bytes, decode with UTF-8, and encode
   again on write; the data they handle is ASCII game metadata, so the
   encode/decode round trip is modelled as the identity and one list
   element stands for one byte.  Python floats and their str-formatting
   are not modelled bit for bit: numeric entity fields are rationals and
   every f-string rendering of a float is abstracted by a function
   parameter producing the rendered character list, so each theorem
   quantifies over all possible renderings. -/

abbrev S := List Char

def spaceChar : Char := Char.ofNat 32

def quoteChar : Char := Char.ofNat 34

def newlineChar : Char := Char.ofNat 10

def spaceRep (n : Nat) : S := List.replicate n spaceChar

/-- Python whitespace class for str.strip and the regex class backslash-s
(space, tab, newline, carriage return, vertical tab, form feed). -/
def isPyWs (c : Char) : Bool :=
  c = spaceChar || c = Char.ofNat 9 || c = newlineChar ||
    c = Char.ofNat 13 || c = Char.ofNat 11 || c = Char.ofNat 12

/-- Normalization of a Python slice index: negative indices count from the
end and everything is clamped into the range 0..len. -/
def pyIdx (len : Nat) (i : Int) : Nat :=
  if i < 0 then ((len : Int) + i).toNat else min i.toNat len

/-- Python `s[:i]` for a possibly negative `i`. -/
def pyTakeI (s : S) (i : Int) : S := s.take (pyIdx s.length i)

/-- Python `s[i:]` for a possibly negative `i`. -/
def pyDropI (s : S) (i : Int) : S := s.drop (pyIdx s.length i)

/-- Python `s.ljust(n)` where `n` may be a negative int. -/
def pyLjustI (s : S) (n : Int) : S :=
  s ++ List.replicate (n.toNat - s.length) spaceChar

/-- Index of the first occurrence of `pat` in `s` (Python str.find, without
the -1 encoding). -/
def findSub (pat : S) : S → Option Nat
  | [] => if pat.isPrefixOf [] then some 0 else none
  | c :: rest =>
    if pat.isPrefixOf (c :: rest) then some 0
    else (findSub pat rest).map (· + 1)

/-- Python `hay.find(needle)`: first index, or -1 when absent. -/
def pyFind (needle hay : S) : Int :=
  match findSub needle hay with
  | some i => (i : Int)
  | none => -1

def rfindSubGo (pat : S) : S → Nat → Option Nat → Option Nat
  | [], _, best => best
  | c :: rest, i, best =>
    rfindSubGo pat rest (i + 1) (if pat.isPrefixOf (c :: rest) then some i else best)

/-- Index of the last occurrence of `pat` in `s` (Python str.rfind). -/
def rfindSub (pat s : S) : Option Nat := rfindSubGo pat s 0 none

/-- Seek to `start` in a file opened r+b and overwrite with `w`
(in-place surgery on the .dat archive; for in-bounds writes this is the
observed file content). -/
def writeAt (dat : S) (start : Nat) (w : S) : S :=
  dat.take start ++ w ++ dat.drop (start + w.length)

/- ===================== d04Injector.py : injections ===================== -/

def entityTreeCloseS : S := "</entityTree>".toList

/-- Padding of a short level file in inject_level: in "spaces_end" mode the
spaces go right before the last `</entityTree>` when one exists, otherwise
(and in the plain mode) they are appended at the end. -/
def level_pad (nc : S) (slot : Nat) (padSpacesEnd : Bool) : S :=
  if nc.length < slot then
    let diff := slot - nc.length
    if padSpacesEnd then
      match rfindSub entityTreeCloseS nc with
      | some endPos => nc.take endPos ++ spaceRep diff ++ nc.drop endPos
      | none => nc ++ spaceRep diff
    else nc ++ spaceRep diff
  else nc

/-- inject_level (d04Injector.py, lines 901-974): the source file content
`newContent` is injected into the level slot of length `slotLen` at byte
offset `contentStart`.  `none` models the error paths (content too long,
failed padding, user declining the confirmation dialog), all of which
return before the file is opened for writing. -/
def inject_level (dat : S) (contentStart slotLen : Nat) (newContent : S)
    (padSpacesEnd confirm : Bool) : Option S :=
  if slotLen < newContent.length then none
  else
    let padded := level_pad newContent slotLen padSpacesEnd
    if padded.length ≠ slotLen then none
    else if confirm then some (writeAt dat contentStart padded) else none

/-- Padding of a short SMiData parameter block in inject_smidata_block:
`new_text[:-2] + ' ' * diff + new_text[-2:]`. -/
def smidata_pad (nt : S) (slot : Nat) : S :=
  pyTakeI nt (-2) ++ spaceRep (slot - nt.length) ++ pyDropI nt (-2)

/-- inject_smidata_block (d04Injector.py, lines 1138-1171).  `newText` is
the output of build_smidata_text; `none` models every error return taken
before the file is written. -/
def inject_smidata_block (dat : S) (blockStart blockEnd : Nat) (newText : S)
    (confirm : Bool) : Option S :=
  let origLen := blockEnd - blockStart
  let padded? : Option S :=
    if newText.length = origLen then some newText
    else if newText.length < origLen then some (smidata_pad newText origLen)
    else none
  match padded? with
  | none => none
  | some t2 =>
    if t2.length ≠ origLen then none
    else if confirm then some (writeAt dat blockStart t2) else none

/-- inject_lighting_block (d04Injector.py, lines 1320-1341): any length
mismatch between the rebuilt text and the slot is an error; there is no
padding branch here. -/
def inject_lighting_block (dat : S) (blockStart blockEnd : Nat) (newText : S)
    (confirm : Bool) : Option S :=
  if newText.length ≠ blockEnd - blockStart then none
  else if confirm then some (writeAt dat blockStart newText) else none

/-- Padding of a short warp block in inject_warp_block: spaces appended at
the end. -/
def warp_pad (nt : S) (slot : Nat) : S := nt ++ spaceRep (slot - nt.length)

/-- inject_warp_block (d04Injector.py, lines 1650-1688).  `newText` is the
output of build_warp_text. -/
def inject_warp_block (dat : S) (blockStart blockEnd : Nat) (newText : S)
    (confirm : Bool) : Option S :=
  let origLen := blockEnd - blockStart
  let padded? : Option S :=
    if newText.length = origLen then some newText
    else if newText.length < origLen then some (warp_pad newText origLen)
    else none
  match padded? with
  | none => none
  | some nb =>
    if nb.length ≠ origLen then none
    else if confirm then some (writeAt dat blockStart nb) else none

/- ============ kata.py / d04Injector.py : fixed-width formatters ============ -/

def rjustSp (w : Nat) (s : S) : S := List.replicate (w - s.length) spaceChar ++ s

def ljustSp (w : Nat) (s : S) : S := s ++ List.replicate (w - s.length) spaceChar

/-- format_strict (kata.py, lines 768-773) applied to the rendering
`rendered` of `f-string val:.10f`: truncate to `width` if longer, fix a
trailing dot by dropping it and right-justifying, then left-justify. -/
def format_strict (rendered : S) (width : Nat) : S :=
  let s :=
    if width < rendered.length then
      let t := rendered.take width
      if t.getLast? = some ('.') then rjustSp width t.dropLast else t
    else rendered
  ljustSp width s

/-- enforce_length (d04Injector.py, lines 1286-1290) applied to the
rendering of `f-string val:.6f`: pad with zeros up to the original length,
then truncate to it. -/
def enforce_length (orig rendered : S) : S :=
  let s :=
    if rendered.length < orig.length then
      rendered ++ List.replicate (orig.length - rendered.length) ('0')
    else rendered
  s.take orig.length

/- ===================== theorems: C1, C2, C3, C9 ===================== -/

/-- C9: format_strict always returns exactly `width` characters and
enforce_length always returns exactly `orig.length` characters, for every
possible rendering of the float argument; the fixed-width re-serializers
never change a field's width. -/
theorem c9_fixed_width_formatters :
    (∀ (rendered : S) (width : Nat), (format_strict rendered width).length = width) ∧
    (∀ (orig rendered : S), (enforce_length orig rendered).length = orig.length) := by
  constructor
  · intro r w
    unfold format_strict ljustSp rjustSp
    by_cases h : w < r.length
    · simp only [h, if_true]
      by_cases h2 : (r.take w).getLast? = some ('.')
      · simp [h2, List.length_take]
      · simp [h2, List.length_take]
    · simp only [h, if_false]
      simp
      omega
  · intro o r
    unfold enforce_length
    by_cases h : r.length < o.length
    · simp [h]
      omega
    · simp only [h, if_false]
      simp
      omega

/-- C1: each of inject_level, inject_smidata_block and inject_warp_block
rejects replacement content that is strictly longer than the slot: the
function hits its error return before the .dat file is opened for
writing, so the result is `none` (no write happens and the file is left
unchanged, whatever the pad mode or confirmation answer). -/
theorem c1_too_long_is_rejected_atomically (dat : S) (start slot : Nat)
    (nc : S) (pm cf : Bool) (h : slot < nc.length) :
    inject_level dat start slot nc pm cf = none ∧
    inject_smidata_block dat start (start + slot) nc cf = none ∧
    inject_warp_block dat start (start + slot) nc cf = none := by
  refine ⟨?_, ?_, ?_⟩
  · unfold inject_level
    rw [if_pos h]
  · have h2 : ¬ (nc.length = slot) := by omega
    have h3 : ¬ (nc.length < slot) := by omega
    simp [inject_smidata_block, h2, h3]
  · have h2 : ¬ (nc.length = slot) := by omega
    have h3 : ¬ (nc.length < slot) := by omega
    simp [inject_warp_block, h2, h3]

theorem c1_too_long_is_rejected_atomically_witness :
    (2 < (("ABC").toList).length) ∧
    (inject_level (("DD").toList) 0 2 (("ABC").toList) false true = none ∧
     inject_smidata_block (("DD").toList) 0 (0 + 2) (("ABC").toList) true = none ∧
     inject_warp_block (("DD").toList) 0 (0 + 2) (("ABC").toList) true = none) :=
  ⟨by decide,
   c1_too_long_is_rejected_atomically (("DD").toList) 0 2 (("ABC").toList) false true
     (by decide)⟩

/-- Frame property of the r+b seek-and-write: for an in-bounds write of
exactly `finish - start` bytes, the file keeps its size, the prefix before
`start` and the suffix from `finish` on. -/
theorem writeAt_frame (dat w : S) (start finish : Nat)
    (hw : w.length = finish - start) (hsf : start ≤ finish)
    (hf : finish ≤ dat.length) :
    (writeAt dat start w).length = dat.length ∧
    (writeAt dat start w).take start = dat.take start ∧
    (writeAt dat start w).drop finish = dat.drop finish := by
  have hwl : start + w.length = finish := by omega
  refine ⟨?_, ?_, ?_⟩
  · simp [writeAt, List.length_append, List.length_take, List.length_drop]
    omega
  · unfold writeAt
    rw [List.take_append_eq_append_take, List.take_append_eq_append_take]
    have h1 : (dat.take start).length = start := by
      simp [List.length_take]; omega
    rw [h1]
    simp [List.take_take]
    omega
  · unfold writeAt
    have h2 : (dat.take start ++ w).length = finish := by
      simp [List.length_append, List.length_take]; omega
    have h3 : (dat.take start ++ w).drop finish = [] := by
      rw [← h2]; exact List.drop_length _
    rw [List.drop_append_eq_append_drop, h2, h3]
    simp [hwl]

/-- C2: every successful injection (level, SMiData, lighting, warp) only
rewrites the half-open byte interval from the block's start to its end:
the file size is unchanged, every byte before the block start is
unchanged and every byte from the block end on is unchanged, so all other
blocks keep their absolute offsets. -/
theorem c2_successful_injection_frame :
    (∀ (dat : S) (start slot : Nat) (nc : S) (pm cf : Bool) (dat2 : S),
        start + slot ≤ dat.length →
        inject_level dat start slot nc pm cf = some dat2 →
        dat2.length = dat.length ∧ dat2.take start = dat.take start ∧
          dat2.drop (start + slot) = dat.drop (start + slot)) ∧
    (∀ (dat : S) (bs be : Nat) (nt : S) (cf : Bool) (dat2 : S),
        bs ≤ be → be ≤ dat.length →
        inject_smidata_block dat bs be nt cf = some dat2 →
        dat2.length = dat.length ∧ dat2.take bs = dat.take bs ∧
          dat2.drop be = dat.drop be) ∧
    (∀ (dat : S) (bs be : Nat) (nt : S) (cf : Bool) (dat2 : S),
        bs ≤ be → be ≤ dat.length →
        inject_lighting_block dat bs be nt cf = some dat2 →
        dat2.length = dat.length ∧ dat2.take bs = dat.take bs ∧
          dat2.drop be = dat.drop be) ∧
    (∀ (dat : S) (bs be : Nat) (nt : S) (cf : Bool) (dat2 : S),
        bs ≤ be → be ≤ dat.length →
        inject_warp_block dat bs be nt cf = some dat2 →
        dat2.length = dat.length ∧ dat2.take bs = dat.take bs ∧
          dat2.drop be = dat.drop be) := by
  refine ⟨?_, ?_, ?_, ?_⟩
  · intro dat start slot nc pm cf dat2 hin h
    by_cases h1 : slot < nc.length
    · simp [inject_level, h1] at h
    · by_cases h2 : (level_pad nc slot pm).length = slot
      · cases cf with
        | false => simp [inject_level, h1, h2] at h
        | true =>
          simp [inject_level, h1, h2] at h
          rw [← h]
          exact writeAt_frame dat _ start (start + slot) (by omega) (by omega) hin
      · simp [inject_level, h1, h2] at h
  · intro dat bs be nt cf dat2 hse hb h
    by_cases hA : nt.length = be - bs
    · cases cf with
      | false => simp [inject_smidata_block, hA] at h
      | true =>
        simp [inject_smidata_block, hA] at h
        rw [← h]
        exact writeAt_frame dat _ bs be (by omega) hse hb
    · by_cases hB : nt.length < be - bs
      · by_cases hC : (smidata_pad nt (be - bs)).length = be - bs
        · cases cf with
          | false => simp [inject_smidata_block, hA, hB, hC] at h
          | true =>
            simp [inject_smidata_block, hA, hB, hC] at h
            rw [← h]
            exact writeAt_frame dat _ bs be (by omega) hse hb
        · simp [inject_smidata_block, hA, hB, hC] at h
      · simp [inject_smidata_block, hA, hB] at h
  · intro dat bs be nt cf dat2 hse hb h
    by_cases hA : nt.length = be - bs
    · cases cf with
      | false => simp [inject_lighting_block, hA] at h
      | true =>
        simp [inject_lighting_block, hA] at h
        rw [← h]
        exact writeAt_frame dat _ bs be (by omega) hse hb
    · simp [inject_lighting_block, hA] at h
  · intro dat bs be nt cf dat2 hse hb h
    by_cases hA : nt.length = be - bs
    · cases cf with
      | false => simp [inject_warp_block, hA] at h
      | true =>
        simp [inject_warp_block, hA] at h
        rw [← h]
        exact writeAt_frame dat _ bs be (by omega) hse hb
    · by_cases hB : nt.length < be - bs
      · by_cases hC : (warp_pad nt (be - bs)).length = be - bs
        · cases cf with
          | false => simp [inject_warp_block, hA, hB, hC] at h
          | true =>
            simp [inject_warp_block, hA, hB, hC] at h
            rw [← h]
            exact writeAt_frame dat _ bs be (by omega) hse hb
        · simp [inject_warp_block, hA, hB, hC] at h
      · simp [inject_warp_block, hA, hB] at h

theorem c2_successful_injection_frame_witness :
    ((("AX DEF").toList).length = (("ABCDEF").toList).length ∧
      (("AX DEF").toList).take 1 = (("ABCDEF").toList).take 1 ∧
      (("AX DEF").toList).drop (1 + 2) = (("ABCDEF").toList).drop (1 + 2)) ∧
    ((("A XDEF").toList).length = (("ABCDEF").toList).length ∧
      (("A XDEF").toList).take 1 = (("ABCDEF").toList).take 1 ∧
      (("A XDEF").toList).drop 3 = (("ABCDEF").toList).drop 3) ∧
    ((("AXYDEF").toList).length = (("ABCDEF").toList).length ∧
      (("AXYDEF").toList).take 1 = (("ABCDEF").toList).take 1 ∧
      (("AXYDEF").toList).drop 3 = (("ABCDEF").toList).drop 3) ∧
    ((("AX DEF").toList).length = (("ABCDEF").toList).length ∧
      (("AX DEF").toList).take 1 = (("ABCDEF").toList).take 1 ∧
      (("AX DEF").toList).drop 3 = (("ABCDEF").toList).drop 3) :=
  ⟨c2_successful_injection_frame.1 (("ABCDEF").toList) 1 2 (("X").toList)
      false true (("AX DEF").toList) (by decide) (by decide),
   c2_successful_injection_frame.2.1 (("ABCDEF").toList) 1 3 (("X").toList)
      true (("A XDEF").toList) (by decide) (by decide) (by decide),
   c2_successful_injection_frame.2.2.1 (("ABCDEF").toList) 1 3 (("XY").toList)
      true (("AXYDEF").toList) (by decide) (by decide) (by decide),
   c2_successful_injection_frame.2.2.2 (("ABCDEF").toList) 1 3 (("X").toList)
      true (("AX DEF").toList) (by decide) (by decide) (by decide)⟩

theorem level_pad_length (nc : S) (slot : Nat) (pm : Bool)
    (h : nc.length < slot) : (level_pad nc slot pm).length = slot := by
  unfold level_pad
  rw [if_pos h]
  cases pm with
  | false =>
    simp [spaceRep]
    omega
  | true =>
    simp only [if_true]
    cases hfind : rfindSub entityTreeCloseS nc with
    | none =>
      simp [spaceRep]
      omega
    | some p =>
      simp [spaceRep, List.length_take, List.length_drop]
      omega

theorem smidata_pad_length (nt : S) (slot : Nat)
    (h : nt.length < slot) : (smidata_pad nt slot).length = slot := by
  unfold smidata_pad pyTakeI pyDropI pyIdx spaceRep
  simp
  omega

theorem warp_pad_length (nt : S) (slot : Nat)
    (h : nt.length < slot) : (warp_pad nt slot).length = slot := by
  simp [warp_pad, spaceRep]
  omega

/-- C3 (amended): the level, SMiData and warp injection paths pad strictly
shorter replacement content with spaces to exactly the slot length and
accept it (writing the padded content, given the user confirms), but the
lighting injection path has no padding branch: it rejects any content
whose length differs from the slot length, including shorter content. -/
theorem c3_shorter_content_amended :
    (∀ (dat : S) (start slot : Nat) (nc : S) (pm : Bool), nc.length < slot →
      inject_level dat start slot nc pm true
          = some (writeAt dat start (level_pad nc slot pm)) ∧
        (level_pad nc slot pm).length = slot) ∧
    (∀ (dat : S) (bs be : Nat) (nt : S), nt.length < be - bs →
      inject_smidata_block dat bs be nt true
          = some (writeAt dat bs (smidata_pad nt (be - bs))) ∧
        (smidata_pad nt (be - bs)).length = be - bs) ∧
    (∀ (dat : S) (bs be : Nat) (nt : S), nt.length < be - bs →
      inject_warp_block dat bs be nt true
          = some (writeAt dat bs (warp_pad nt (be - bs))) ∧
        (warp_pad nt (be - bs)).length = be - bs) ∧
    (∀ (dat : S) (bs be : Nat) (nt : S) (cf : Bool), nt.length ≠ be - bs →
      inject_lighting_block dat bs be nt cf = none) := by
  refine ⟨?_, ?_, ?_, ?_⟩
  · intro dat start slot nc pm h
    have h1 : ¬ slot < nc.length := by omega
    have h2 := level_pad_length nc slot pm h
    exact ⟨by simp [inject_level, h1, h2], h2⟩
  · intro dat bs be nt h
    have hA : ¬ (nt.length = be - bs) := by omega
    have h2 := smidata_pad_length nt (be - bs) h
    exact ⟨by simp [inject_smidata_block, hA, h, h2], h2⟩
  · intro dat bs be nt h
    have hA : ¬ (nt.length = be - bs) := by omega
    have h2 := warp_pad_length nt (be - bs) h
    exact ⟨by simp [inject_warp_block, hA, h, h2], h2⟩
  · intro dat bs be nt cf h
    simp [inject_lighting_block, h]

theorem c3_shorter_content_amended_witness :
    ((inject_level (("ABCDEF").toList) 1 2 (("X").toList) false true
          = some (writeAt (("ABCDEF").toList) 1 (level_pad (("X").toList) 2 false)) ∧
        (level_pad (("X").toList) 2 false).length = 2) ∧
      (inject_smidata_block (("ABCDEF").toList) 1 3 (("X").toList) true
          = some (writeAt (("ABCDEF").toList) 1 (smidata_pad (("X").toList) (3 - 1))) ∧
        (smidata_pad (("X").toList) (3 - 1)).length = 3 - 1) ∧
      (inject_warp_block (("ABCDEF").toList) 1 3 (("X").toList) true
          = some (writeAt (("ABCDEF").toList) 1 (warp_pad (("X").toList) (3 - 1))) ∧
        (warp_pad (("X").toList) (3 - 1)).length = 3 - 1) ∧
      inject_lighting_block (("ABCDEF").toList) 1 3 (("X").toList) true = none) :=
  ⟨c3_shorter_content_amended.1 (("ABCDEF").toList) 1 2 (("X").toList) false (by decide),
   c3_shorter_content_amended.2.1 (("ABCDEF").toList) 1 3 (("X").toList) (by decide),
   c3_shorter_content_amended.2.2.1 (("ABCDEF").toList) 1 3 (("X").toList) (by decide),
   c3_shorter_content_amended.2.2.2 (("ABCDEF").toList) 1 3 (("X").toList) true (by decide)⟩

/-- C3 counterexample: the claim says every injection path, including
inject_lighting_block, pads shorter content with spaces and accepts it.
On this concrete input the rebuilt lighting text is one byte shorter than
the 2-byte slot, and inject_lighting_block rejects it with a length
mismatch error instead of padding and writing. -/
theorem c3_lighting_rejects_shorter_counterexample :
    (("X").toList).length < 3 - 1 ∧
    inject_lighting_block (("ABCDEF").toList) 1 3 (("X").toList) true = none := by
  decide

/- ============ d04Injector.py : build_smidata_text (C6) ============ -/

/-- The lazy `.*?` followed by a closing quote in a non-DOTALL regex:
index of the first quote character, failing if a newline comes first. -/
def scanQuoteS : S → Nat → Option Nat
  | [], _ => none
  | c :: r, k =>
    if c = quoteChar then some k
    else if c = newlineChar then none
    else scanQuoteS r (k + 1)

/-- One attempt of the regex `key\s*=\s*".*?"` anchored at the start of
`s`; on success returns the offsets (relative to `s`) of the value's first
character and of the closing quote.  The two greedy whitespace runs are
deterministic because neither '=' nor '"' is whitespace. -/
def attemptKeyAt (key : S) (s : S) : Option (Nat × Nat) :=
  if key.isPrefixOf s then
    let s1 := s.drop key.length
    let n1 := (s1.takeWhile isPyWs).length
    match s1.drop n1 with
    | c1 :: s2 =>
      if c1 = ('=') then
        let n2 := (s2.takeWhile isPyWs).length
        match s2.drop n2 with
        | c2 :: s3 =>
          if c2 = quoteChar then
            match scanQuoteS s3 0 with
            | some k =>
              let vs := key.length + n1 + 1 + n2 + 1
              some (vs, vs + k)
            | none => none
          else none
        | [] => none
      else none
    | [] => none
  else none

def findKeyAssignGo (key : S) : S → Nat → Option (Nat × Nat)
  | [], _ => none
  | c :: rest, i =>
    match attemptKeyAt key (c :: rest) with
    | some (vs, ve) => some (i + vs, i + ve)
    | none => findKeyAssignGo key rest (i + 1)

/-- Leftmost match of `key\s*=\s*".*?"` in `txt`: absolute offsets of the
value's first character and of its closing quote. -/
def findKeyAssign (key txt : S) : Option (Nat × Nat) :=
  findKeyAssignGo key txt 0

/-- `re.sub(f'({key}\\s*=\\s*").*?(")', group1 + nv + group2, txt, count=1)`:
replace the value of the first `key="..."` assignment with `nv`; when the
pattern does not match, the text is returned unchanged. -/
def reSubKeyValue (key nv txt : S) : S :=
  match findKeyAssign key txt with
  | none => txt
  | some (vs, ve) => txt.take vs ++ nv ++ quoteChar :: txt.drop (ve + 1)

/-- One row of self.smidata_entries: the attribute key, the current widget
text and the originally parsed value. -/
structure SmiEntry where
  key : S
  newVal : S
  orig : S

/-- The length adjustment build_smidata_text applies to each new value:
space padding if shorter than the original value, truncation if longer. -/
def smiAdjust (nv orig : S) : S :=
  if nv.length = orig.length then nv
  else if nv.length < orig.length then nv ++ spaceRep (orig.length - nv.length)
  else nv.take orig.length

/-- build_smidata_text (d04Injector.py, lines 1097-1117): fold the
per-entry in-place substitutions over the block text. -/
def build_smidata_text (txt : S) (entries : List SmiEntry) : S :=
  entries.foldl
    (fun t ent => reSubKeyValue ent.key (smiAdjust ent.newVal ent.orig) t) txt

/-- Soundness condition for one substitution step: if the key's assignment
pattern matches at all, the matched value span is well-formed and has
exactly the length of the entry's original value.  This is what holds when
each attribute key occurs (at most) once in the block text and the
original values were parsed from that same text. -/
def smiRepOk (key : S) (origLen : Nat) (txt : S) : Bool :=
  match findKeyAssign key txt with
  | none => true
  | some (vs, ve) => decide (vs ≤ ve ∧ ve < txt.length ∧ ve - vs = origLen)

def smidataOkGo : S → List SmiEntry → Bool
  | _, [] => true
  | txt, ent :: rest =>
    smiRepOk ent.key ent.orig.length txt &&
      smidataOkGo (reSubKeyValue ent.key (smiAdjust ent.newVal ent.orig) txt) rest

/-- The per-step soundness condition along the whole fold of
build_smidata_text. -/
def build_smidata_ok (txt : S) (entries : List SmiEntry) : Bool :=
  smidataOkGo txt entries

theorem smiAdjust_length (nv orig : S) :
    (smiAdjust nv orig).length = orig.length := by
  unfold smiAdjust
  by_cases h1 : nv.length = orig.length
  · simp [h1]
  · by_cases h2 : nv.length < orig.length
    · simp [h1, h2, spaceRep]
      omega
    · simp [h1, h2, List.length_take]
      omega

theorem reSubKeyValue_length (key nv txt : S)
    (hok : smiRepOk key nv.length txt = true) :
    (reSubKeyValue key nv txt).length = txt.length := by
  unfold reSubKeyValue
  unfold smiRepOk at hok
  cases hka : findKeyAssign key txt with
  | none => rfl
  | some p =>
    obtain ⟨vs, ve⟩ := p
    rw [hka] at hok
    simp at hok
    simp [List.length_append, List.length_take, List.length_drop]
    omega

/-- C6: when every substitution step of build_smidata_text finds its
key's assignment spanning exactly the original value (which is the case
when each attribute key occurs at most once in the block text and the
original values were parsed from it), the rebuilt text has exactly the
character length of the block's original text; and the per-field
adjustment always produces exactly the length of the field's original
value (space padding if shorter, truncation if longer). -/
theorem c6_smidata_text_length (txt : S) (entries : List SmiEntry)
    (h : build_smidata_ok txt entries = true) :
    (build_smidata_text txt entries).length = txt.length ∧
    ∀ (nv orig : S), (smiAdjust nv orig).length = orig.length := by
  refine ⟨?_, fun nv orig => smiAdjust_length nv orig⟩
  induction entries generalizing txt with
  | nil => rfl
  | cons ent rest ih =>
    unfold build_smidata_ok smidataOkGo at h
    rw [Bool.and_eq_true] at h
    obtain ⟨h1, h2⟩ := h
    unfold build_smidata_text
    rw [List.foldl_cons]
    have hstep : (reSubKeyValue ent.key (smiAdjust ent.newVal ent.orig) txt).length
        = txt.length := by
      apply reSubKeyValue_length
      rw [smiAdjust_length]
      exact h1
    have := ih (reSubKeyValue ent.key (smiAdjust ent.newVal ent.orig) txt) h2
    unfold build_smidata_text at this
    rw [this, hstep]

theorem c6_smidata_text_length_witness :
    build_smidata_ok (("u8Fog=\"12\" x").toList)
      [⟨("u8Fog").toList, ("4567").toList, ("12").toList⟩] = true ∧
    ((build_smidata_text (("u8Fog=\"12\" x").toList)
        [⟨("u8Fog").toList, ("4567").toList, ("12").toList⟩]).length
      = (("u8Fog=\"12\" x").toList).length ∧
      ∀ (nv orig : S), (smiAdjust nv orig).length = orig.length) :=
  ⟨by decide,
   c6_smidata_text_length (("u8Fog=\"12\" x").toList)
     [⟨("u8Fog").toList, ("4567").toList, ("12").toList⟩] (by decide)⟩

/- ===================== kata.py : entity model ===================== -/

/-- Python str.strip(). -/
def stripS (s : S) : S :=
  ((s.dropWhile isPyWs).reverse.dropWhile isPyWs).reverse

/-- Python str.zfill: pad with zeros on the left up to `w`, keeping a
leading sign in place. -/
def zfill (s : S) (w : Nat) : S :=
  if w ≤ s.length then s
  else
    match s with
    | c :: rest =>
      if c = ('+') ∨ c = ('-') then c :: (List.replicate (w - s.length) ('0') ++ rest)
      else List.replicate (w - s.length) ('0') ++ s
    | [] => List.replicate w ('0')

/-- Python `src[a:b]` for in-range nonnegative indices. -/
def pySliceN (l : S) (a b : Nat) : S := (l.take b).drop a

def tagOpen (t : S) : S := '<' :: (t ++ ['>'])

def tagClose (t : S) : S := '<' :: '/' :: (t ++ ['>'])

/-- The regex `<t>(.*?)</t>` with DOTALL used by _parse_block's get_t:
content between the first opening tag and the first closing tag after it.
(If the first opening tag has no closing tag after it, no later one has
either, so the whole regex fails.) -/
def get_t? (tag src : S) : Option S :=
  match findSub (tagOpen tag) src with
  | none => none
  | some i =>
    let rest := src.drop (i + (tagOpen tag).length)
    match findSub (tagClose tag) rest with
    | none => none
    | some j => some (rest.take j)

/-- get_t inside _parse_block (kata.py, lines 728-730): the tag content
and its length, or the empty string and 0 when the regex fails. -/
def get_t (tag src : S) : S × Nat :=
  match get_t? tag src with
  | none => ([], 0)
  | some c => (c, c.length)

/-- find_val inside _parse_block (kata.py, lines 731-735): the first tag
of the list that matches, stripped, else "0". -/
def find_val (tags : List S) (src : S) : S :=
  match tags with
  | [] => ['0']
  | t :: ts =>
    match get_t? t src with
    | some c => stripS c
    | none => find_val ts src

/-- Spans of the maximal runs of non-whitespace characters, as produced by
`re.finditer` of the class `[^\s]+` (start, end) pairs. -/
def spansGo : S → Nat → Option Nat → List (Nat × Nat)
  | [], _, none => []
  | [], pos, some st => [(st, pos)]
  | c :: rest, pos, cur =>
    if isPyWs c then
      match cur with
      | some st => (st, pos) :: spansGo rest (pos + 1) none
      | none => spansGo rest (pos + 1) none
    else
      match cur with
      | some st => spansGo rest (pos + 1) (some st)
      | none => spansGo rest (pos + 1) (some pos)

def nonWsSpans (s : S) : List (Nat × Nat) := spansGo s 0 none

/-- One entity record as built by _parse_block (kata.py, lines 727-766).
Numeric fields hold the rational value of the parsed float; the parse of
a float literal is abstracted by the `pf` parameter of parse_block. -/
structure MapEntity where
  raw : S
  p_raw_content : S
  r_raw_content : S
  p_indices : List (Nat × Nat)
  r_indices : List (Nat × Nat)
  id_tag_len : Nat
  x : ℚ
  y : ℚ
  z : ℚ
  rw : ℚ
  rx : ℚ
  ry : ℚ
  rz : ℚ
  id : S
  pack : S
  atk : S
  mov : S
  esc : S
  spd : S
  pth : S
  scale : S
  plus_type : S
  plus_fly_height : S
  plus_roll_speed : S
  plus_angle : S
  parent_type : S
  child_ids : List S
deriving DecidableEq

def defaultEntity : MapEntity :=
  { raw := [], p_raw_content := [], r_raw_content := [], p_indices := [],
    r_indices := [], id_tag_len := 0, x := 0, y := 0, z := 0, rw := 0,
    rx := 0, ry := 0, rz := 0, id := [], pack := [], atk := [], mov := [],
    esc := [], spd := [], pth := [], scale := [], plus_type := [],
    plus_fly_height := [], plus_roll_speed := [], plus_angle := [],
    parent_type := [], child_ids := [] }

def posiT : S := "posi".toList
def rollT : S := "roll".toList
def indexT : S := "index".toList
def packIdT : S := "pack_id".toList
def attackTypeT : S := "attack_type".toList
def moveTypeT : S := "move_type".toList
def escapeTypeT : S := "escape_type".toList
def moveSpeedT : S := "move_speed".toList
def speedT : S := "speed".toList
def movePathIdT : S := "move_path_id".toList
def pathIdT : S := "path_id".toList
def scaleT : S := "scale".toList
def plusTypeT : S := "plus_type".toList
def plusFlyHeightT : S := "plus_fly_height".toList
def plusRollSpeedT : S := "plus_roll_speed".toList
def plusAngleT : S := "plus_angle".toList
def parentTypeT : S := "parent_type".toList

/-- _parse_block (kata.py, lines 727-766).  `pf` abstracts Python's
`float(...)` on the matched token text. -/
def parse_block (pf : S → ℚ) (b : S) : MapEntity :=
  let pPair := get_t posiT b
  let p_raw := pPair.1
  let p_spans := nonWsSpans p_raw
  let p := if p_spans.length = 3
    then p_spans.map (fun sp => pf (pySliceN p_raw sp.1 sp.2)) else [0, 0, 0]
  let p_indices := if p_spans.length = 3 then p_spans else []
  let rPair := get_t rollT b
  let r_raw := rPair.1
  let r_spans := nonWsSpans r_raw
  let r := if r_spans.length = 4
    then r_spans.map (fun sp => pf (pySliceN r_raw sp.1 sp.2)) else [0, 0, 0, 1]
  let r_indices := if r_spans.length = 4 then r_spans else []
  let idPair := get_t indexT b
  { raw := b
    p_raw_content := p_raw
    r_raw_content := r_raw
    p_indices := p_indices
    r_indices := r_indices
    id_tag_len := idPair.2
    x := p.getD 0 0
    y := p.getD 1 0
    z := p.getD 2 0
    rw := r.getD 0 0
    rx := r.getD 1 0
    ry := r.getD 2 0
    rz := r.getD 3 0
    id := stripS idPair.1
    pack := stripS (get_t packIdT b).1
    atk := stripS (get_t attackTypeT b).1
    mov := stripS (get_t moveTypeT b).1
    esc := stripS (get_t escapeTypeT b).1
    spd := find_val [moveSpeedT, speedT] b
    pth := find_val [movePathIdT, pathIdT] b
    scale := find_val [scaleT] b
    plus_type := find_val [plusTypeT] b
    plus_fly_height := find_val [plusFlyHeightT] b
    plus_roll_speed := find_val [plusRollSpeedT] b
    plus_angle := find_val [plusAngleT] b
    parent_type := find_val [parentTypeT] b
    child_ids := [] }

/- ============ kata.py : in-place rewriting (C5, C7) ============ -/

/-- The span-by-span rebuild loop shared by _sync_entity_raw and
commit_batch_changes: keep the text between spans, re-render each span's
value with format_strict at the span's width. -/
def rebuildFmtGo (render10 : ℚ → S) (orig : S) :
    List (Nat × Nat) → List ℚ → Nat → S
  | [], _, l => orig.drop l
  | (a, b2) :: ss, vals, l =>
    (orig.take a).drop l ++
      format_strict (render10 (vals.headD 0)) (b2 - a)
      ++ rebuildFmtGo render10 orig ss vals.tail b2

/-- safe_rep inside commit_batch_changes (kata.py, lines 781-787),
including Python's find()-returns(-1) encoding and negative-index slice
semantics. -/
def safe_rep (tag nc block : S) : S :=
  let so := tagOpen tag
  let se := tagClose tag
  let si : Int := pyFind so block + (so.length : Int)
  let ei : Int := pyFind se block
  if si = -1 ∨ ei = -1 then block
  else
    let origLen : Int := ei - si
    let finalStr := pyLjustI (pyTakeI nc origLen) origLen
    pyTakeI block si ++ finalStr ++ pyDropI block ei

/-- Matching-tags condition for one safe_rep call: either the closing tag
is absent (safe_rep leaves the block unchanged), or both tags are present
with the opening tag's end before the closing tag. -/
def safeRepOk (tag block : S) : Bool :=
  match findSub (tagClose tag) block with
  | none => true
  | some ic =>
    match findSub (tagOpen tag) block with
    | none => false
    | some io => decide (io + (tagOpen tag).length ≤ ic)

/-- _sync_entity_raw (kata.py, lines 692-706). -/
def sync_entity_raw (render10 : ℚ → S) (ent : MapEntity) : MapEntity :=
  let reconstructed :=
    rebuildFmtGo render10 ent.p_raw_content ent.p_indices [ent.x, ent.y, ent.z] 0
  let si : Int := pyFind (tagOpen posiT) ent.raw + ((tagOpen posiT).length : Int)
  let ei : Int := pyFind (tagClose posiT) ent.raw
  let final_block := pyLjustI (pyTakeI reconstructed (ei - si)) (ei - si)
  { ent with p_raw_content := reconstructed,
             raw := pyTakeI ent.raw si ++ final_block ++ pyDropI ent.raw ei }

/-- Matching posi tags in the raw block, as _sync_entity_raw finds them
(it has no guard of its own). -/
def syncOk (ent : MapEntity) : Bool :=
  match findSub (tagClose posiT) ent.raw with
  | none => false
  | some ic =>
    match findSub (tagOpen posiT) ent.raw with
    | none => false
    | some io => decide (io + (tagOpen posiT).length ≤ ic)

/-- The twelve plain fields rewritten by the field loop of
commit_batch_changes (kata.py, lines 818-828), in source order. -/
inductive FieldId
  | fid | fatk | fmov | fesc | fspd | fpth | fscale | fplus_type
  | fplus_fly_height | fplus_roll_speed | fplus_angle | fparent_type
deriving DecidableEq

def fieldTag : FieldId → S
  | .fid => indexT
  | .fatk => attackTypeT
  | .fmov => moveTypeT
  | .fesc => escapeTypeT
  | .fspd => speedT
  | .fpth => pathIdT
  | .fscale => scaleT
  | .fplus_type => plusTypeT
  | .fplus_fly_height => plusFlyHeightT
  | .fplus_roll_speed => plusRollSpeedT
  | .fplus_angle => plusAngleT
  | .fparent_type => parentTypeT

def setField : FieldId → MapEntity → S → MapEntity
  | .fid, e, v => { e with id := v }
  | .fatk, e, v => { e with atk := v }
  | .fmov, e, v => { e with mov := v }
  | .fesc, e, v => { e with esc := v }
  | .fspd, e, v => { e with spd := v }
  | .fpth, e, v => { e with pth := v }
  | .fscale, e, v => { e with scale := v }
  | .fplus_type, e, v => { e with plus_type := v }
  | .fplus_fly_height, e, v => { e with plus_fly_height := v }
  | .fplus_roll_speed, e, v => { e with plus_roll_speed := v }
  | .fplus_angle, e, v => { e with plus_angle := v }
  | .fparent_type, e, v => { e with parent_type := v }

/-- The dirty_fields set of kata.py, restricted to the tags
commit_batch_changes looks at. -/
structure DirtySet where
  pos0 : Bool := false
  pos1 : Bool := false
  pos2 : Bool := false
  rot0 : Bool := false
  rot1 : Bool := false
  rot2 : Bool := false
  rot3 : Bool := false
  did : Bool := false
  datk : Bool := false
  dmov : Bool := false
  desc : Bool := false
  dspd : Bool := false
  dpth : Bool := false
  dscale : Bool := false
  dplus_type : Bool := false
  dplus_fly_height : Bool := false
  dplus_roll_speed : Bool := false
  dplus_angle : Bool := false
  dparent_type : Bool := false
deriving DecidableEq

def fieldDirty : FieldId → DirtySet → Bool
  | .fid, d => d.did
  | .fatk, d => d.datk
  | .fmov, d => d.dmov
  | .fesc, d => d.desc
  | .fspd, d => d.dspd
  | .fpth, d => d.dpth
  | .fscale, d => d.dscale
  | .fplus_type, d => d.dplus_type
  | .fplus_fly_height, d => d.dplus_fly_height
  | .fplus_roll_speed, d => d.dplus_roll_speed
  | .fplus_angle, d => d.dplus_angle
  | .fparent_type, d => d.dparent_type

/-- The text currently in the twelve batch editor entry widgets
(get_entry_val), already as strings. -/
structure EntryVals where
  vid : S := []
  vatk : S := []
  vmov : S := []
  vesc : S := []
  vspd : S := []
  vpth : S := []
  vscale : S := []
  vplus_type : S := []
  vplus_fly_height : S := []
  vplus_roll_speed : S := []
  vplus_angle : S := []
  vparent_type : S := []
deriving DecidableEq

def fieldVal : FieldId → EntryVals → S
  | .fid, e => e.vid
  | .fatk, e => e.vatk
  | .fmov, e => e.vmov
  | .fesc, e => e.vesc
  | .fspd, e => e.vspd
  | .fpth, e => e.vpth
  | .fscale, e => e.vscale
  | .fplus_type, e => e.vplus_type
  | .fplus_fly_height, e => e.vplus_fly_height
  | .fplus_roll_speed, e => e.vplus_roll_speed
  | .fplus_angle, e => e.vplus_angle
  | .fparent_type, e => e.vparent_type

def fieldOrder : List FieldId :=
  [.fid, .fatk, .fmov, .fesc, .fspd, .fpth, .fscale, .fplus_type,
   .fplus_fly_height, .fplus_roll_speed, .fplus_angle, .fparent_type]

/-- The posi branch of commit_batch_changes (kata.py, lines 788-805) on
one entity.  The Bool component accumulates, alongside the faithful
entity update, whether each safe_rep call actually performed found
matching tags in order (the condition under which it is an in-place
splice). -/
def commitPosStep (render10 : ℚ → S) (useOffset : Bool) (dirty : DirtySet)
    (posVals : List ℚ) (ent0 : MapEntity) : MapEntity × Bool :=
  if (dirty.pos0 || dirty.pos1 || dirty.pos2) && decide (ent0.p_indices.length = 3) then
    let nx := if dirty.pos0
      then (if useOffset then ent0.x + -(posVals.getD 0 0) else -(posVals.getD 0 0))
      else ent0.x
    let ny := if dirty.pos1
      then (if useOffset then ent0.y + -(posVals.getD 1 0) else -(posVals.getD 1 0))
      else ent0.y
    let nz := if dirty.pos2
      then (if useOffset then ent0.z + -(posVals.getD 2 0) else -(posVals.getD 2 0))
      else ent0.z
    let newContent := rebuildFmtGo render10 ent0.p_raw_content ent0.p_indices [nx, ny, nz] 0
    ({ ent0 with x := nx, y := ny, z := nz, p_raw_content := newContent,
                 raw := safe_rep posiT newContent ent0.raw },
      safeRepOk posiT ent0.raw)
  else (ent0, true)

/-- The roll branch of commit_batch_changes (kata.py, lines 806-817). -/
def commitRotStep (render10 : ℚ → S) (dirty : DirtySet)
    (rotVals : List ℚ) (st : MapEntity × Bool) : MapEntity × Bool :=
  if (dirty.rot0 || dirty.rot1 || dirty.rot2 || dirty.rot3)
      && decide (st.1.r_indices.length = 4) then
    let e1 := st.1
    let nw := if dirty.rot0 then rotVals.getD 0 0 else e1.rw
    let nrx := if dirty.rot1 then rotVals.getD 1 0 else e1.rx
    let nry := if dirty.rot2 then rotVals.getD 2 0 else e1.ry
    let nrz := if dirty.rot3 then rotVals.getD 3 0 else e1.rz
    let newContent := rebuildFmtGo render10 e1.r_raw_content e1.r_indices [nw, nrx, nry, nrz] 0
    ({ e1 with rw := nw, rx := nrx, ry := nry, rz := nrz, r_raw_content := newContent,
               raw := safe_rep rollT newContent e1.raw },
      st.2 && safeRepOk rollT e1.raw)
  else st

/-- One iteration of the twelve-field loop of commit_batch_changes
(kata.py, lines 818-828): strip the entry text (id additionally
zero-filled to the index tag width minus 2), store it in the entity and
splice it, space-framed, into the raw block. -/
def commitFieldStep (dirty : DirtySet) (ev : EntryVals) (idW : Nat)
    (st : MapEntity × Bool) (f : FieldId) : MapEntity × Bool :=
  if fieldDirty f dirty then
    let v0 := stripS (fieldVal f ev)
    let v := if f = FieldId.fid then zfill v0 idW else v0
    let ent1 := setField f st.1 v
    ({ ent1 with raw := safe_rep (fieldTag f) (spaceChar :: (v ++ [spaceChar])) ent1.raw },
      st.2 && safeRepOk (fieldTag f) ent1.raw)
  else st

/-- The per-entity body of commit_batch_changes (kata.py, lines 779-829),
together with the accumulated matching-tags flag. -/
def commitAux (render10 : ℚ → S) (useOffset : Bool) (dirty : DirtySet)
    (posVals rotVals : List ℚ) (ev : EntryVals) (ent0 : MapEntity) :
    MapEntity × Bool :=
  fieldOrder.foldl (commitFieldStep dirty ev (ent0.id_tag_len - 2))
    (commitRotStep render10 dirty rotVals
      (commitPosStep render10 useOffset dirty posVals ent0))

def commit_entity (render10 : ℚ → S) (useOffset : Bool) (dirty : DirtySet)
    (posVals rotVals : List ℚ) (ev : EntryVals) (ent0 : MapEntity) : MapEntity :=
  (commitAux render10 useOffset dirty posVals rotVals ev ent0).1

def commit_ok (render10 : ℚ → S) (useOffset : Bool) (dirty : DirtySet)
    (posVals rotVals : List ℚ) (ev : EntryVals) (ent0 : MapEntity) : Bool :=
  (commitAux render10 useOffset dirty posVals rotVals ev ent0).2

theorem findSub_le_length (pat : S) :
    ∀ (s : S) (i : Nat), findSub pat s = some i → i ≤ s.length := by
  intro s
  induction s with
  | nil =>
    intro i h
    unfold findSub at h
    split at h
    · simp at h
      omega
    · simp at h
  | cons c rest ih =>
    intro i h
    unfold findSub at h
    split at h
    · simp at h
      omega
    · rw [Option.map_eq_some'] at h
      obtain ⟨j, hj, hji⟩ := h
      have := ih j hj
      simp [List.length_cons]
      omega

/-- Length of the three-piece splice `block[:si] + mid-ljust + block[ei:]`
performed by safe_rep and _sync_entity_raw, for matched tags in order. -/
theorem surgery_length (raw mid : S) (io L ic : Nat)
    (h1 : io + L ≤ ic) (h2 : ic ≤ raw.length) :
    (pyTakeI raw ((io : Int) + (L : Int)) ++
      pyLjustI (pyTakeI mid ((ic : Int) - ((io : Int) + (L : Int))))
        ((ic : Int) - ((io : Int) + (L : Int))) ++
      pyDropI raw (ic : Int)).length = raw.length := by
  unfold pyTakeI pyDropI pyLjustI pyIdx
  rw [if_neg (by omega : ¬ ((io : Int) + (L : Int) < 0)),
    if_neg (by omega : ¬ (((ic : Int) - ((io : Int) + (L : Int))) < 0)),
    if_neg (by omega : ¬ ((ic : Int) < 0))]
  simp [List.length_append, List.length_take, List.length_drop,
    List.length_replicate]
  omega

theorem safe_rep_length (tag nc block : S)
    (hok : safeRepOk tag block = true) :
    (safe_rep tag nc block).length = block.length := by
  unfold safeRepOk at hok
  cases hc : findSub (tagClose tag) block with
  | none =>
    simp [safe_rep, pyFind, hc]
  | some ic =>
    rw [hc] at hok
    cases ho : findSub (tagOpen tag) block with
    | none =>
      rw [ho] at hok
      simp at hok
    | some io =>
      rw [ho] at hok
      simp only [decide_eq_true_eq] at hok
      have hic := findSub_le_length _ _ _ hc
      simp only [safe_rep, pyFind, hc, ho]
      rw [if_neg (by omega :
        ¬ ((io : Int) + ((tagOpen tag).length : Int) = -1 ∨ (ic : Int) = -1))]
      exact surgery_length block nc io (tagOpen tag).length ic hok hic

theorem setField_raw (f : FieldId) (e : MapEntity) (v : S) :
    (setField f e v).raw = e.raw := by
  cases f <;> rfl

theorem commitFieldStep_length (dirty : DirtySet) (ev : EntryVals) (idW : Nat)
    (st : MapEntity × Bool) (f : FieldId)
    (h : (commitFieldStep dirty ev idW st f).2 = true) :
    (commitFieldStep dirty ev idW st f).1.raw.length = st.1.raw.length ∧
      st.2 = true := by
  unfold commitFieldStep at h ⊢
  by_cases hd : fieldDirty f dirty = true
  · simp only [hd, if_true] at h ⊢
    rw [Bool.and_eq_true] at h
    obtain ⟨h1, h2⟩ := h
    constructor
    · rw [setField_raw] at h2 ⊢
      exact safe_rep_length _ _ _ h2
    · exact h1
  · simp only [hd, if_false] at h ⊢
    exact ⟨rfl, h⟩

theorem foldl_commitFieldStep_length (dirty : DirtySet) (ev : EntryVals)
    (idW : Nat) :
    ∀ (fs : List FieldId) (st : MapEntity × Bool),
      (fs.foldl (commitFieldStep dirty ev idW) st).2 = true →
      (fs.foldl (commitFieldStep dirty ev idW) st).1.raw.length
          = st.1.raw.length ∧ st.2 = true := by
  intro fs
  induction fs with
  | nil => intro st h; exact ⟨rfl, h⟩
  | cons f rest ih =>
    intro st h
    rw [List.foldl_cons] at h ⊢
    obtain ⟨hlen, hmid⟩ := ih (commitFieldStep dirty ev idW st f) h
    obtain ⟨hstep, hst⟩ := commitFieldStep_length dirty ev idW st f hmid
    exact ⟨by rw [hlen, hstep], hst⟩

theorem commitRotStep_length (render10 : ℚ → S) (dirty : DirtySet)
    (rotVals : List ℚ) (st : MapEntity × Bool)
    (h : (commitRotStep render10 dirty rotVals st).2 = true) :
    (commitRotStep render10 dirty rotVals st).1.raw.length = st.1.raw.length ∧
      st.2 = true := by
  unfold commitRotStep at h ⊢
  by_cases hc : ((dirty.rot0 || dirty.rot1 || dirty.rot2 || dirty.rot3)
      && decide (st.1.r_indices.length = 4)) = true
  · simp only [hc, if_true] at h ⊢
    rw [Bool.and_eq_true] at h
    obtain ⟨h1, h2⟩ := h
    exact ⟨safe_rep_length _ _ _ h2, h1⟩
  · simp only [hc, if_false] at h ⊢
    exact ⟨rfl, h⟩

theorem commitPosStep_length (render10 : ℚ → S) (useOffset : Bool)
    (dirty : DirtySet) (posVals : List ℚ) (ent0 : MapEntity)
    (h : (commitPosStep render10 useOffset dirty posVals ent0).2 = true) :
    (commitPosStep render10 useOffset dirty posVals ent0).1.raw.length
      = ent0.raw.length := by
  unfold commitPosStep at h ⊢
  by_cases hc : ((dirty.pos0 || dirty.pos1 || dirty.pos2)
      && decide (ent0.p_indices.length = 3)) = true
  · simp only [hc, if_true] at h ⊢
    exact safe_rep_length _ _ _ h
  · simp only [hc, if_false]
    rfl

/-- C5: for an entity whose raw block contains the matching open/close
tags of every edited field (posi tags for _sync_entity_raw, and at each
rewriting step of commit_batch_changes the tags of the field being
spliced, formalized by syncOk and the accumulated commit_ok flag; the
claim's token-count hypotheses are h3 and h4), both _sync_entity_raw and
the per-entity body of commit_batch_changes leave the character length of
the entity's raw block unchanged, so every edit operation preserves the
length of the text save_map_file will write. -/
theorem c5_edits_preserve_raw_length (render10 : ℚ → S) (useOffset : Bool)
    (dirty : DirtySet) (posVals rotVals : List ℚ) (ev : EntryVals)
    (ent : MapEntity)
    (h3 : ent.p_indices.length = 3) (h4 : ent.r_indices.length = 4)
    (hs : syncOk ent = true)
    (hc : commit_ok render10 useOffset dirty posVals rotVals ev ent = true) :
    (sync_entity_raw render10 ent).raw.length = ent.raw.length ∧
    (commit_entity render10 useOffset dirty posVals rotVals ev ent).raw.length
      = ent.raw.length := by
  constructor
  · unfold syncOk at hs
    cases hcl : findSub (tagClose posiT) ent.raw with
    | none => rw [hcl] at hs; simp at hs
    | some ic =>
      rw [hcl] at hs
      cases hop : findSub (tagOpen posiT) ent.raw with
      | none => rw [hop] at hs; simp at hs
      | some io =>
        rw [hop] at hs
        simp at hs
        have hic := findSub_le_length _ _ _ hcl
        simp only [sync_entity_raw, pyFind, hcl, hop]
        exact surgery_length ent.raw _ io (tagOpen posiT).length ic hs hic
  · unfold commit_ok commitAux at hc
    unfold commit_entity commitAux
    obtain ⟨hlenF, hmid⟩ := foldl_commitFieldStep_length dirty ev
      (ent.id_tag_len - 2) fieldOrder _ hc
    obtain ⟨hlenR, hpos⟩ := commitRotStep_length render10 dirty rotVals _ hmid
    have hlenP := commitPosStep_length render10 useOffset dirty posVals ent hpos
    rw [hlenF, hlenR, hlenP]

def wEntC5 : MapEntity :=
  { defaultEntity with
    raw := ("<posi>1 2 3</posi>").toList
    p_raw_content := ("1 2 3").toList
    p_indices := [(0, 1), (2, 3), (4, 5)]
    r_indices := [(0, 0), (0, 0), (0, 0), (0, 0)] }

def wDirtyC5 : DirtySet := { pos0 := true }

def wRenderC5 : ℚ → S := fun _ => ("9").toList

theorem c5_edits_preserve_raw_length_witness :
    (wEntC5.p_indices.length = 3 ∧ wEntC5.r_indices.length = 4 ∧
      syncOk wEntC5 = true ∧
      commit_ok wRenderC5 false wDirtyC5 [5] [] {} wEntC5 = true) ∧
    ((sync_entity_raw wRenderC5 wEntC5).raw.length = wEntC5.raw.length ∧
      (commit_entity wRenderC5 false wDirtyC5 [5] [] {} wEntC5).raw.length
        = wEntC5.raw.length) :=
  ⟨⟨by decide, by decide, by decide, by decide⟩,
   c5_edits_preserve_raw_length wRenderC5 false wDirtyC5 [5] [] {} wEntC5
     (by decide) (by decide) (by decide) (by decide)⟩

/- ============ kata.py : plane fitting and snapping (C7, C8) ============ -/

/-- Python's abs() on the plane coefficients (kept executable: the
Mathlib |.| on the rationals does not reduce in the kernel). -/
def absQ (q : ℚ) : ℚ := if q < 0 then -q else q

inductive Axis3
  | ax | ay | az
deriving DecidableEq

/-- The snap-axis choice of snap_to_plane (kata.py, lines 380-383):
y by default, overridden by the first coefficient of magnitude above 0.5
in the order c, b, a. -/
def snapAxisOf (a b c : ℚ) : Axis3 :=
  if 1/2 < absQ c then Axis3.ay
  else if 1/2 < absQ b then Axis3.az
  else if 1/2 < absQ a then Axis3.ax
  else Axis3.ay

/-- The per-entity body of snap_to_plane (kata.py, lines 373-399) for the
plane a*X + b*Z + c*Y + d = 0 (the plane stores coordinates in the order
x, z, y).  `none` models the error message shown when the selected
denominator is smaller than 1e-6 in magnitude, in which case no entity is
touched. -/
def snap_to_plane_entity (render10 : ℚ → S) (a b c d : ℚ)
    (ent : MapEntity) : Option MapEntity :=
  let axis := snapAxisOf a b c
  let denom := match axis with
    | Axis3.ay => c
    | Axis3.az => b
    | Axis3.ax => a
  if absQ denom < 1/1000000 then none
  else
    let val := match axis with
      | Axis3.ay => -(a * ent.x + b * ent.z + d) / c
      | Axis3.az => -(a * ent.x + c * ent.y + d) / b
      | Axis3.ax => -(b * ent.z + c * ent.y + d) / a
    let cur := match axis with
      | Axis3.ay => ent.y
      | Axis3.az => ent.z
      | Axis3.ax => ent.x
    if cur = val then some ent
    else
      let ent2 := match axis with
        | Axis3.ay => { ent with y := val }
        | Axis3.az => { ent with z := val }
        | Axis3.ax => { ent with x := val }
      some (sync_entity_raw render10 ent2)

theorem sync_entity_raw_coords (r : ℚ → S) (e : MapEntity) :
    (sync_entity_raw r e).x = e.x ∧ (sync_entity_raw r e).y = e.y ∧
      (sync_entity_raw r e).z = e.z :=
  ⟨rfl, rfl, rfl⟩

theorem absQ_lt_of_eq_zero (q : ℚ) (h : q = 0) : absQ q < 1/1000000 := by
  rw [h]
  norm_num [absQ]

/-- C7: when snap_to_plane succeeds (so the selected denominator has
magnitude at least 1e-6), every snapped entity's coordinates satisfy the
exact plane equation a*x + b*z + c*y + d = 0 afterwards, and only the
chosen coordinate axis is modified: the other two coordinates are
unchanged. -/
theorem c7_snap_to_plane (render10 : ℚ → S) (a b c d : ℚ)
    (ent ent2 : MapEntity)
    (h : snap_to_plane_entity render10 a b c d ent = some ent2) :
    a * ent2.x + b * ent2.z + c * ent2.y + d = 0 ∧
    (snapAxisOf a b c = Axis3.ay → ent2.x = ent.x ∧ ent2.z = ent.z) ∧
    (snapAxisOf a b c = Axis3.az → ent2.x = ent.x ∧ ent2.y = ent.y) ∧
    (snapAxisOf a b c = Axis3.ax → ent2.y = ent.y ∧ ent2.z = ent.z) := by
  unfold snap_to_plane_entity at h
  cases hax : snapAxisOf a b c with
  | ay =>
    rw [hax] at h
    simp only [] at h
    by_cases hd : absQ c < 1/1000000
    · rw [if_pos hd] at h
      exact absurd h (by simp)
    · have hc : c ≠ 0 := fun h0 => hd (absQ_lt_of_eq_zero c h0)
      rw [if_neg hd] at h
      by_cases he : ent.y = -(a * ent.x + b * ent.z + d) / c
      · rw [if_pos he, Option.some_inj] at h
        subst h
        refine ⟨?_, fun _ => ⟨rfl, rfl⟩,
          fun hx => absurd hx (by decide), fun hx => absurd hx (by decide)⟩
        rw [he]
        field_simp
        ring
      · rw [if_neg he, Option.some_inj] at h
        subst h
        refine ⟨?_, fun _ => ⟨rfl, rfl⟩,
          fun hx => absurd hx (by decide), fun hx => absurd hx (by decide)⟩
        show a * ent.x + b * ent.z + c * (-(a * ent.x + b * ent.z + d) / c) + d = 0
        field_simp
        ring
  | az =>
    rw [hax] at h
    simp only [] at h
    by_cases hd : absQ b < 1/1000000
    · rw [if_pos hd] at h
      exact absurd h (by simp)
    · have hb : b ≠ 0 := fun h0 => hd (absQ_lt_of_eq_zero b h0)
      rw [if_neg hd] at h
      by_cases he : ent.z = -(a * ent.x + c * ent.y + d) / b
      · rw [if_pos he, Option.some_inj] at h
        subst h
        refine ⟨?_, fun hx => absurd hx (by decide),
          fun _ => ⟨rfl, rfl⟩, fun hx => absurd hx (by decide)⟩
        rw [he]
        field_simp
        ring
      · rw [if_neg he, Option.some_inj] at h
        subst h
        refine ⟨?_, fun hx => absurd hx (by decide),
          fun _ => ⟨rfl, rfl⟩, fun hx => absurd hx (by decide)⟩
        show a * ent.x + b * (-(a * ent.x + c * ent.y + d) / b) + c * ent.y + d = 0
        field_simp
        ring
  | ax =>
    rw [hax] at h
    simp only [] at h
    by_cases hd : absQ a < 1/1000000
    · rw [if_pos hd] at h
      exact absurd h (by simp)
    · have ha : a ≠ 0 := fun h0 => hd (absQ_lt_of_eq_zero a h0)
      rw [if_neg hd] at h
      by_cases he : ent.x = -(b * ent.z + c * ent.y + d) / a
      · rw [if_pos he, Option.some_inj] at h
        subst h
        refine ⟨?_, fun hx => absurd hx (by decide),
          fun hx => absurd hx (by decide), fun _ => ⟨rfl, rfl⟩⟩
        rw [he]
        field_simp
        ring
      · rw [if_neg he, Option.some_inj] at h
        subst h
        refine ⟨?_, fun hx => absurd hx (by decide),
          fun hx => absurd hx (by decide), fun _ => ⟨rfl, rfl⟩⟩
        show a * (-(b * ent.z + c * ent.y + d) / a) + b * ent.z + c * ent.y + d = 0
        field_simp
        ring

def wRenderC7 : ℚ → S := fun _ => []

def wEntC7 : MapEntity := { defaultEntity with x := 7, z := 3, y := 5 }

theorem c7_snap_to_plane_witness :
    snap_to_plane_entity wRenderC7 0 0 1 (-5) wEntC7 = some wEntC7 ∧
    ((0 : ℚ) * wEntC7.x + 0 * wEntC7.z + 1 * wEntC7.y + (-5) = 0 ∧
      (snapAxisOf 0 0 1 = Axis3.ay → wEntC7.x = wEntC7.x ∧ wEntC7.z = wEntC7.z) ∧
      (snapAxisOf 0 0 1 = Axis3.az → wEntC7.x = wEntC7.x ∧ wEntC7.y = wEntC7.y) ∧
      (snapAxisOf 0 0 1 = Axis3.ax → wEntC7.y = wEntC7.y ∧ wEntC7.z = wEntC7.z)) :=
  ⟨by norm_num [snap_to_plane_entity, snapAxisOf, absQ, wEntC7, defaultEntity],
   c7_snap_to_plane wRenderC7 0 0 1 (-5) wEntC7 wEntC7
     (by norm_num [snap_to_plane_entity, snapAxisOf, absQ, wEntC7, defaultEntity])⟩

/-- One entry of self.planes. -/
structure KPlane where
  name : S
  coeffs : ℚ × ℚ × ℚ × ℚ
  points : List (ℚ × ℚ × ℚ)
  auto : Bool

def meanQ (l : List ℚ) : ℚ := l.sum / (l.length : ℚ)

/-- numpy mean(axis=0) of the selected (x, z, y) points. -/
def centroidOf (pts : List (ℚ × ℚ × ℚ)) : ℚ × ℚ × ℚ :=
  (meanQ (pts.map (fun p => p.1)),
   meanQ (pts.map (fun p => p.2.1)),
   meanQ (pts.map (fun p => p.2.2)))

/-- The plane record appended by create_plane_from_selection (kata.py,
lines 348-357).  `normalFn` abstracts the SVD normal (the third right
singular vector of the centered points) and `nameFn` the f-string label;
d is minus the dot product of the normal with the centroid, and the
plane carries no auto flag. -/
def newPlaneOf (normalFn : List (ℚ × ℚ × ℚ) → ℚ × ℚ × ℚ)
    (nameFn : Nat → ℚ × ℚ × ℚ → S) (selected : List Nat)
    (entities : List MapEntity) (planes : List KPlane) : KPlane :=
  let pts := selected.map (fun i =>
    ((entities.getD i defaultEntity).x,
     (entities.getD i defaultEntity).z,
     (entities.getD i defaultEntity).y))
  let ctr := centroidOf pts
  let nrm := normalFn (pts.map (fun p =>
    (p.1 - ctr.1, p.2.1 - ctr.2.1, p.2.2 - ctr.2.2)))
  let d := -(nrm.1 * ctr.1 + nrm.2.1 * ctr.2.1 + nrm.2.2 * ctr.2.2)
  { name := nameFn (planes.length + 1) ctr
    coeffs := (nrm.1, nrm.2.1, nrm.2.2, d)
    points := pts
    auto := false }

/-- create_plane_from_selection (kata.py, lines 340-359): warn and return
unless 3 to 5 entities are selected, warn and return when 5 or more
non-auto planes exist, otherwise append the fitted plane. -/
def create_plane_from_selection (normalFn : List (ℚ × ℚ × ℚ) → ℚ × ℚ × ℚ)
    (nameFn : Nat → ℚ × ℚ × ℚ → S) (selected : List Nat)
    (entities : List MapEntity) (planes : List KPlane) : List KPlane :=
  if ¬ (3 ≤ selected.length ∧ selected.length ≤ 5) then planes
  else if 5 ≤ (planes.filter (fun p => !p.auto)).length then planes
  else planes ++ [newPlaneOf normalFn nameFn selected entities planes]

/-- C8: create_plane_from_selection appends exactly one new plane when
between 3 and 5 entities are selected and fewer than 5 non-auto planes
exist, and in every other case (too few or too many selected, or the
plane limit reached) leaves the plane list unchanged (only showing a
warning). -/
theorem c8_create_plane_guards (normalFn : List (ℚ × ℚ × ℚ) → ℚ × ℚ × ℚ)
    (nameFn : Nat → ℚ × ℚ × ℚ → S) (selected : List Nat)
    (entities : List MapEntity) (planes : List KPlane) :
    ((3 ≤ selected.length ∧ selected.length ≤ 5) ∧
        (planes.filter (fun p => !p.auto)).length < 5 →
      create_plane_from_selection normalFn nameFn selected entities planes
        = planes ++ [newPlaneOf normalFn nameFn selected entities planes]) ∧
    (¬ ((3 ≤ selected.length ∧ selected.length ≤ 5) ∧
        (planes.filter (fun p => !p.auto)).length < 5) →
      create_plane_from_selection normalFn nameFn selected entities planes
        = planes) := by
  constructor
  · rintro ⟨h1, h2⟩
    unfold create_plane_from_selection
    rw [if_neg (not_not_intro h1), if_neg (by omega)]
  · intro h
    unfold create_plane_from_selection
    by_cases h1 : 3 ≤ selected.length ∧ selected.length ≤ 5
    · have h2 : 5 ≤ (planes.filter (fun p => !p.auto)).length := by
        by_contra hx
        exact h ⟨h1, by omega⟩
      rw [if_neg (not_not_intro h1), if_pos h2]
    · rw [if_pos h1]

def wNormalC8 : List (ℚ × ℚ × ℚ) → ℚ × ℚ × ℚ := fun _ => (0, 0, 1)

def wNameC8 : Nat → ℚ × ℚ × ℚ → S := fun _ _ => []

theorem c8_create_plane_guards_witness :
    create_plane_from_selection wNormalC8 wNameC8 [0, 1, 2]
        ([] : List MapEntity) ([] : List KPlane)
      = [] ++ [newPlaneOf wNormalC8 wNameC8 [0, 1, 2]
          ([] : List MapEntity) ([] : List KPlane)] ∧
    create_plane_from_selection wNormalC8 wNameC8 [0]
        ([] : List MapEntity) ([] : List KPlane) = [] :=
  ⟨(c8_create_plane_guards wNormalC8 wNameC8 [0, 1, 2]
      ([] : List MapEntity) ([] : List KPlane)).1 (by decide),
   (c8_create_plane_guards wNormalC8 wNameC8 [0]
      ([] : List MapEntity) ([] : List KPlane)).2 (by decide)⟩

/- ============ kata.py : Hierarchy depth (C10) ============ -/

/-- `child_id.strip().zfill(4)` as used for parent-map keys. -/
def clean4 (s : S) : S := zfill (stripS s) 4

/-- Python dict assignment `parent_map[k] = v` on an association list with
unique keys: overwrite when present, append when fresh. -/
def pmInsert (m : List (S × Nat)) (k : S) (v : Nat) : List (S × Nat) :=
  if m.any (fun p => p.1 == k) then
    m.map (fun p => if p.1 == k then (k, v) else p)
  else m ++ [(k, v)]

def pmLookup (m : List (S × Nat)) (k : S) : Option Nat :=
  (m.find? (fun p => p.1 == k)).map (fun p => p.2)

/-- The parent map built at the top of the Hierarchy branch of get_colors
(kata.py, lines 463-468): for each entity and each of its child ids,
map the cleaned id to the entity's index. -/
def buildParentMap (ents : List MapEntity) : List (S × Nat) :=
  ents.enum.foldl
    (fun m pr =>
      pr.2.child_ids.foldl (fun m2 cid => pmInsert m2 (clean4 cid) pr.1) m)
    []

/-- The while loop of get_depth (kata.py, lines 471-483) with an explicit
fuel bound: loop while the current id is a parent-map key not yet
visited; each iteration adds the id to the visited set, follows the
parent link and increments the depth. -/
def getDepthGo (ents : List MapEntity) (pm : List (S × Nat)) :
    Nat → S → List S → Nat → Option Nat
  | 0, _, _, _ => none
  | fuel + 1, current, visited, depth =>
    match pmLookup pm current with
    | none => some depth
    | some pidx =>
      if current ∈ visited then some depth
      else getDepthGo ents pm fuel (clean4 (ents.getD pidx defaultEntity).id)
        (current :: visited) (depth + 1)

/-- get_depth, run with fuel one more than the number of parent-map keys
(the proved iteration bound). -/
def get_depth (ents : List MapEntity) (idx : Nat) : Option Nat :=
  let pm := buildParentMap ents
  getDepthGo ents pm (pm.length + 1) (clean4 (ents.getD idx defaultEntity).id) [] 0

/-- Number of parent-map entries whose key is not yet visited: the loop
variant of get_depth. -/
def pmRemaining (pm : List (S × Nat)) (visited : List S) : Nat :=
  (pm.filter (fun p => decide (p.1 ∉ visited))).length

theorem filter_length_le_of_imp {A : Type} (l : List A) (p q : A → Bool)
    (h : ∀ a, p a = true → q a = true) :
    (l.filter p).length ≤ (l.filter q).length := by
  induction l with
  | nil => simp
  | cons a tl ih =>
    rw [List.filter_cons, List.filter_cons]
    by_cases hp : p a = true
    · rw [if_pos hp, if_pos (h a hp)]
      simpa using ih
    · rw [if_neg hp]
      by_cases hq : q a = true
      · rw [if_pos hq]
        exact ih.trans (by simp)
      · rw [if_neg hq]
        exact ih

theorem filter_length_lt_of_witness {A : Type} (l : List A) (p q : A → Bool)
    (a0 : A) (h : ∀ a, p a = true → q a = true)
    (hmem : a0 ∈ l) (hp0 : p a0 = false) (hq0 : q a0 = true) :
    (l.filter p).length < (l.filter q).length := by
  induction l with
  | nil => cases hmem
  | cons a tl ih =>
    rw [List.filter_cons, List.filter_cons]
    rcases List.mem_cons.mp hmem with rfl | hmem2
    · rw [if_neg (by simp [hp0]), if_pos hq0]
      have := filter_length_le_of_imp tl p q h
      simp only [List.length_cons]
      omega
    · by_cases hpa : p a = true
      · rw [if_pos hpa, if_pos (h a hpa)]
        have := ih hmem2
        simp only [List.length_cons]
        omega
      · rw [if_neg hpa]
        by_cases hqa : q a = true
        · rw [if_pos hqa]
          have := ih hmem2
          simp only [List.length_cons]
          omega
        · rw [if_neg hqa]
          exact ih hmem2

theorem pmVisited_imp (cur : S) (visited : List S) :
    ∀ (a : S × Nat), (decide (a.1 ∉ cur :: visited)) = true →
      (decide (a.1 ∉ visited)) = true := by
  intro a ha
  simp at ha ⊢
  exact ha.2

theorem pmRemaining_lt (pm : List (S × Nat)) (cur : S) (visited : List S)
    (pidx : Nat) (hl : pmLookup pm cur = some pidx) (hnv : cur ∉ visited) :
    pmRemaining pm (cur :: visited) < pmRemaining pm visited := by
  unfold pmLookup at hl
  rw [Option.map_eq_some'] at hl
  obtain ⟨e, hfind, _⟩ := hl
  have hmem := List.mem_of_find?_eq_some hfind
  have hpred := List.find?_some hfind
  have he1 : e.1 = cur := by simpa using hpred
  unfold pmRemaining
  apply filter_length_lt_of_witness pm _ _ e (pmVisited_imp cur visited) hmem
  · simp [he1]
  · simp [he1]
    exact hnv

theorem getDepthGo_total (ents : List MapEntity) (pm : List (S × Nat)) :
    ∀ (fuel : Nat) (cur : S) (visited : List S) (depth : Nat),
      pmRemaining pm visited < fuel →
      ∃ d, getDepthGo ents pm fuel cur visited depth = some d ∧
        d ≤ depth + pmRemaining pm visited := by
  intro fuel
  induction fuel with
  | zero => intro cur visited depth h; omega
  | succ n ih =>
    intro cur visited depth h
    unfold getDepthGo
    cases hl : pmLookup pm cur with
    | none => exact ⟨depth, rfl, by omega⟩
    | some pidx =>
      simp only []
      by_cases hv : cur ∈ visited
      · rw [if_pos hv]
        exact ⟨depth, rfl, by omega⟩
      · rw [if_neg hv]
        have hlt := pmRemaining_lt pm cur visited pidx hl hv
        obtain ⟨d, hd, hdb⟩ := ih (clean4 (ents.getD pidx defaultEntity).id)
          (cur :: visited) (depth + 1) (by omega)
        exact ⟨d, hd, by omega⟩

/-- C10: the Hierarchy-mode depth computation terminates on every entity
list, including cyclic parent/child id references: because each id is
added to the visited set before following its parent link, the loop runs
at most as many iterations as the parent map has keys, so running it with
fuel (number of keys) + 1 always yields a result, and the returned depth
(= the number of iterations executed) is at most the number of keys. -/
theorem c10_get_depth_terminates (ents : List MapEntity) (idx : Nat) :
    ∃ d, get_depth ents idx = some d ∧ d ≤ (buildParentMap ents).length := by
  have hle : pmRemaining (buildParentMap ents) [] ≤ (buildParentMap ents).length := by
    unfold pmRemaining
    exact List.length_filter_le _ _
  obtain ⟨d, hd, hb⟩ := getDepthGo_total ents (buildParentMap ents)
    ((buildParentMap ents).length + 1)
    (clean4 ((ents.getD idx defaultEntity).id)) [] 0 (by omega)
  exact ⟨d, hd, by omega⟩

/- ============ kata.py : load_file / save_map_file (C4) ============ -/

/-- The four structural tokens of the map scanner
`(<entity>|</entity>|<child>|</child>)`. -/
inductive Tok4
  | entOpen | entClose | childOpen | childClose
deriving DecidableEq

def entOpenS : S := "<entity>".toList
def entCloseS : S := "</entity>".toList
def childOpenS : S := "<child>".toList
def childCloseS : S := "</child>".toList

def tokStr : Tok4 → S
  | Tok4.entOpen => entOpenS
  | Tok4.entClose => entCloseS
  | Tok4.childOpen => childOpenS
  | Tok4.childClose => childCloseS

/-- At a given position at most one of the four alternatives matches
(none is a prefix of another), so re.finditer's choice is their plain
prefix test. -/
def matchTok (s : S) : Option Tok4 :=
  if entOpenS.isPrefixOf s then some Tok4.entOpen
  else if entCloseS.isPrefixOf s then some Tok4.entClose
  else if childOpenS.isPrefixOf s then some Tok4.childOpen
  else if childCloseS.isPrefixOf s then some Tok4.childClose
  else none

/-- re.finditer of the token alternation: scan left to right, emitting
each non-overlapping match with its start offset.  Fuel-driven so that it
computes by kernel reduction; fuel = length of the scanned text
suffices since every step consumes at least one character. -/
def tokenScanF : Nat → S → Nat → List (Tok4 × Nat)
  | 0, _, _ => []
  | _ + 1, [], _ => []
  | fuel + 1, c :: rest, pos =>
    match matchTok (c :: rest) with
    | some t =>
      (t, pos) :: tokenScanF fuel ((c :: rest).drop (tokStr t).length)
        (pos + (tokStr t).length)
    | none => tokenScanF fuel rest (pos + 1)

def tokenScan (content : S) : List (Tok4 × Nat) :=
  tokenScanF content.length content 0

/-- One item of self.file_sequence: structural text, or an entity record
(Python stores the same dict object in file_sequence and in entities;
since no load-time step mutates an entity's raw text, carrying the record
inline is observationally equal for save_map_file). -/
inductive SeqItem
  | txt : S → SeqItem
  | ent : MapEntity → SeqItem

def itemChars : SeqItem → S
  | SeqItem.txt s => s
  | SeqItem.ent e => e.raw

def joinSeq (l : List SeqItem) : S :=
  l.foldr (fun it acc => itemChars it ++ acc) []

def listModify {A : Type} : List A → Nat → (A → A) → List A
  | [], _, _ => []
  | a :: tl, 0, f => f a :: tl
  | a :: tl, n + 1, f => a :: listModify tl n f

/-- The loop state of load_file (kata.py, lines 1000-1065). -/
structure LoadSt where
  last_pos : Nat
  entity_start : Option Nat
  fseq : List SeqItem
  ents : List MapEntity
  pstack : List Nat

/-- One iteration of the token loop of load_file: append the gap text
when not recording, then handle the token (start recording at <entity>,
seal the parent head at <child>, seal the entity at </entity> and link it
to the top parent, track the parent stack at <child>/</child>). -/
def loadStep (pf : S → ℚ) (content : S) (st : LoadSt) (m : Tok4 × Nat) : LoadSt :=
  let start := m.2
  let endp := start + (tokStr m.1).length
  let fseq1 := match st.entity_start with
    | none =>
      if st.last_pos < start then
        st.fseq ++ [SeqItem.txt (pySliceN content st.last_pos start)]
      else st.fseq
    | some _ => st.fseq
  match m.1 with
  | Tok4.entOpen =>
    { st with last_pos := endp, entity_start := some start, fseq := fseq1 }
  | Tok4.childOpen =>
    match st.entity_start with
    | some es =>
      let e := parse_block pf (pySliceN content es start)
      { last_pos := endp
        entity_start := none
        fseq := (fseq1 ++ [SeqItem.ent e]) ++ [SeqItem.txt childOpenS]
        ents := st.ents ++ [e]
        pstack := st.pstack ++ [st.ents.length] }
    | none =>
      { st with last_pos := endp, fseq := fseq1 ++ [SeqItem.txt childOpenS] }
  | Tok4.entClose =>
    match st.entity_start with
    | some es =>
      let e := parse_block pf (pySliceN content es endp)
      let ents1 := st.ents ++ [e]
      let ents2 := match st.pstack.getLast? with
        | some pidx =>
          listModify ents1 pidx
            (fun pe => { pe with child_ids := pe.child_ids ++ [e.id] })
        | none => ents1
      { last_pos := endp
        entity_start := none
        fseq := fseq1 ++ [SeqItem.ent e]
        ents := ents2
        pstack := st.pstack }
    | none =>
      { st with last_pos := endp, fseq := fseq1 ++ [SeqItem.txt entCloseS] }
  | Tok4.childClose =>
    { st with
      last_pos := endp
      fseq := fseq1 ++ [SeqItem.txt childCloseS]
      pstack := st.pstack.dropLast }

/-- load_file (kata.py, lines 995-1084), without the UI parts: fold the
token loop over the scanned content and append the trailing text. -/
def load_file (pf : S → ℚ) (content : S) : LoadSt :=
  let st0 : LoadSt :=
    { last_pos := 0, entity_start := none, fseq := [], ents := [], pstack := [] }
  let st := (tokenScan content).foldl (loadStep pf content) st0
  if st.last_pos < content.length then
    { st with fseq := st.fseq ++ [SeqItem.txt (content.drop st.last_pos)] }
  else st

/-- save_map_file (kata.py, lines 1160-1165): concatenate the file
sequence, taking the raw text of entity items. -/
def save_map_file (st : LoadSt) : S := joinSeq st.fseq

/-- Proper nesting of the token stream, tracked through the scanner's
recording flag: no <entity> may occur while an entity is being recorded,
no </child> may occur while recording, and recording must be finished at
the end of the stream. -/
def nestedOkGo : List (Tok4 × Nat) → Bool → Bool
  | [], recFlag => !recFlag
  | (t, _) :: ms, recFlag =>
    match t with
    | Tok4.entOpen => !recFlag && nestedOkGo ms true
    | Tok4.childOpen => nestedOkGo ms false
    | Tok4.entClose => nestedOkGo ms false
    | Tok4.childClose => !recFlag && nestedOkGo ms false

/-- The <entity>, </entity>, <child>, </child> tokens of `content` are
properly nested for the load_file scanner. -/
def wellNested (content : S) : Bool :=
  nestedOkGo (tokenScan content) false

theorem isPrefixOf_exists (p : S) : ∀ (s : S),
    p.isPrefixOf s = true ↔ ∃ t, p ++ t = s := by
  intro s
  rw [ List.isPrefixOf_iff_prefix]
  exact Iff.rfl

theorem matchTok_spec (s : S) (t : Tok4) (h : matchTok s = some t) :
    (tokStr t).isPrefixOf s = true := by
  unfold matchTok at h
  by_cases h1 : entOpenS.isPrefixOf s = true
  · rw [if_pos h1] at h
    cases h
    exact h1
  · rw [if_neg h1] at h
    by_cases h2 : entCloseS.isPrefixOf s = true
    · rw [if_pos h2] at h
      cases h
      exact h2
    · rw [if_neg h2] at h
      by_cases h3 : childOpenS.isPrefixOf s = true
      · rw [if_pos h3] at h
        cases h
        exact h3
      · rw [if_neg h3] at h
        by_cases h4 : childCloseS.isPrefixOf s = true
        · rw [if_pos h4] at h
          cases h
          exact h4
        · rw [if_neg h4] at h
          cases h

theorem tokStr_len_pos (t : Tok4) : 1 ≤ (tokStr t).length := by
  cases t <;> decide

theorem take_slice_append (content : S) (a b : Nat) (hab : a ≤ b) :
    content.take a ++ pySliceN content a b = content.take b := by
  unfold pySliceN
  have h1 : (content.take b).take a = content.take a := by
    rw [List.take_take, Nat.min_eq_left hab]
  calc content.take a ++ (content.take b).drop a
      = (content.take b).take a ++ (content.take b).drop a := by rw [h1]
    _ = content.take b := List.take_append_drop a (content.take b)

theorem token_slice (content s : S) (p : Nat) (t : Tok4)
    (hdrop : content.drop p = s) (hpre : (tokStr t).isPrefixOf s = true) :
    content.take (p + (tokStr t).length) = content.take p ++ tokStr t := by
  obtain ⟨r, hr⟩ := (isPrefixOf_exists (tokStr t) s).mp hpre
  rw [List.take_add]
  congr 1
  rw [hdrop, ← hr]
  exact List.take_left ..

theorem drop_add_of_drop (content : S) (p k : Nat) (s : S)
    (h : content.drop p = s) : content.drop (p + k) = s.drop k := by
  rw [← h, List.drop_drop, Nat.add_comm]

theorem drop_cons_lt (content : S) (p : Nat) (c : Char) (cs : S)
    (h : content.drop p = c :: cs) : p < content.length := by
  by_contra hx
  push_neg at hx
  rw [List.drop_eq_nil_of_le hx] at h
  cases h

theorem joinSeq_acc (l : List SeqItem) (a : S) :
    l.foldr (fun it acc => itemChars it ++ acc) a
      = l.foldr (fun it acc => itemChars it ++ acc) [] ++ a := by
  induction l with
  | nil => simp
  | cons x tl ih => simp [List.foldr_cons, ih]

theorem joinSeq_append (l : List SeqItem) (x : SeqItem) :
    joinSeq (l ++ [x]) = joinSeq l ++ itemChars x := by
  unfold joinSeq
  rw [List.foldr_append, joinSeq_acc]
  simp

/-- The cut point up to which the file sequence covers the input: the
recording start when an entity is being recorded, the last token end
otherwise. -/
def cutOf (st : LoadSt) : Nat :=
  match st.entity_start with
  | none => st.last_pos
  | some es => es

theorem gap_join (content : S) (st : LoadSt) (p : Nat)
    (hst : st.entity_start = none) (hlp : st.last_pos ≤ p)
    (hjoin : joinSeq st.fseq = content.take (cutOf st)) :
    joinSeq (if st.last_pos < p then
        st.fseq ++ [SeqItem.txt (pySliceN content st.last_pos p)]
      else st.fseq) = content.take p := by
  have hcu : cutOf st = st.last_pos := by simp [cutOf, hst]
  rw [hcu] at hjoin
  by_cases h : st.last_pos < p
  · rw [if_pos h, joinSeq_append, hjoin]
    exact take_slice_append content _ _ (by omega)
  · rw [if_neg h, hjoin]
    congr 1
    omega

theorem parse_block_raw (pf : S → ℚ) (b : S) : (parse_block pf b).raw = b := rfl

theorem loadStep_invariant (pf : S → ℚ) (content : S) (st : LoadSt)
    (t : Tok4) (p : Nat)
    (htok : content.take (p + (tokStr t).length) = content.take p ++ tokStr t)
    (hlp : st.last_pos ≤ p)
    (hjoin : joinSeq st.fseq = content.take (cutOf st))
    (hcut : cutOf st ≤ st.last_pos)
    (hno : t = Tok4.entOpen → st.entity_start = none)
    (hnc : t = Tok4.childClose → st.entity_start = none) :
    (loadStep pf content st (t, p)).last_pos = p + (tokStr t).length ∧
    joinSeq (loadStep pf content st (t, p)).fseq
      = content.take (cutOf (loadStep pf content st (t, p))) ∧
    cutOf (loadStep pf content st (t, p))
      ≤ (loadStep pf content st (t, p)).last_pos ∧
    (loadStep pf content st (t, p)).entity_start
      = (if t = Tok4.entOpen then some p else none) := by
  cases t with
  | entOpen =>
    have hes := hno rfl
    have hjoin2 := gap_join content st p hes hlp hjoin
    refine ⟨?_, ?_, ?_, ?_⟩
    · simp [loadStep, hes]
    · have hcu2 : cutOf (loadStep pf content st (Tok4.entOpen, p)) = p := by
        simp [loadStep, hes, cutOf]
      have hfseq : (loadStep pf content st (Tok4.entOpen, p)).fseq
          = (if st.last_pos < p then
              st.fseq ++ [SeqItem.txt (pySliceN content st.last_pos p)]
            else st.fseq) := by
        simp [loadStep, hes]
      rw [hfseq, hcu2, hjoin2]
    · simp [loadStep, hes, cutOf]
    · simp [loadStep, hes]
  | childOpen =>
    have htok2 : content.take (p + (tokStr Tok4.childOpen).length)
        = content.take p ++ childOpenS := htok
    cases hes : st.entity_start with
    | some es =>
      have hesp : es ≤ p := by
        have hx : cutOf st = es := by simp [cutOf, hes]
        omega
      have hje : joinSeq st.fseq = content.take es := by
        rw [hjoin]
        congr 1
        simp [cutOf, hes]
      refine ⟨?_, ?_, ?_, ?_⟩
      · simp [loadStep, hes]
      · have hcu2 : cutOf (loadStep pf content st (Tok4.childOpen, p))
            = p + (tokStr Tok4.childOpen).length := by
          simp [loadStep, hes, cutOf]
        have hfseq : (loadStep pf content st (Tok4.childOpen, p)).fseq
            = (st.fseq ++ [SeqItem.ent (parse_block pf (pySliceN content es p))])
              ++ [SeqItem.txt childOpenS] := by
          simp [loadStep, hes]
        rw [hfseq, hcu2, joinSeq_append, joinSeq_append, hje]
        have h1 : itemChars (SeqItem.ent (parse_block pf (pySliceN content es p)))
            = pySliceN content es p := rfl
        have h2 : itemChars (SeqItem.txt childOpenS) = childOpenS := rfl
        rw [h1, h2, take_slice_append content es p hesp, ← htok2]
      · simp [loadStep, hes, cutOf]
      · simp [loadStep, hes]
    | none =>
      have hjoin2 := gap_join content st p hes hlp hjoin
      refine ⟨?_, ?_, ?_, ?_⟩
      · simp [loadStep, hes]
      · have hcu2 : cutOf (loadStep pf content st (Tok4.childOpen, p))
            = p + (tokStr Tok4.childOpen).length := by
          simp [loadStep, hes, cutOf]
        have hfseq : (loadStep pf content st (Tok4.childOpen, p)).fseq
            = (if st.last_pos < p then
                st.fseq ++ [SeqItem.txt (pySliceN content st.last_pos p)]
              else st.fseq) ++ [SeqItem.txt childOpenS] := by
          simp [loadStep, hes]
        rw [hfseq, hcu2, joinSeq_append, hjoin2]
        have h2 : itemChars (SeqItem.txt childOpenS) = childOpenS := rfl
        rw [h2, ← htok2]
      · simp [loadStep, hes, cutOf]
      · simp [loadStep, hes]
  | entClose =>
    have htok2 : content.take (p + (tokStr Tok4.entClose).length)
        = content.take p ++ entCloseS := htok
    cases hes : st.entity_start with
    | some es =>
      have hesp : es ≤ p + (tokStr Tok4.entClose).length := by
        have hx : cutOf st = es := by simp [cutOf, hes]
        omega
      have hje : joinSeq st.fseq = content.take es := by
        rw [hjoin]
        congr 1
        simp [cutOf, hes]
      refine ⟨?_, ?_, ?_, ?_⟩
      · simp [loadStep, hes]
      · have hcu2 : cutOf (loadStep pf content st (Tok4.entClose, p))
            = p + (tokStr Tok4.entClose).length := by
          simp [loadStep, hes, cutOf]
        have hfseq : (loadStep pf content st (Tok4.entClose, p)).fseq
            = st.fseq ++ [SeqItem.ent (parse_block pf
                (pySliceN content es (p + (tokStr Tok4.entClose).length)))] := by
          simp [loadStep, hes]
        rw [hfseq, hcu2, joinSeq_append, hje]
        have h1 : itemChars (SeqItem.ent (parse_block pf
              (pySliceN content es (p + (tokStr Tok4.entClose).length))))
            = pySliceN content es (p + (tokStr Tok4.entClose).length) := rfl
        rw [h1, take_slice_append content es (p + (tokStr Tok4.entClose).length) hesp]
      · simp [loadStep, hes, cutOf]
      · simp [loadStep, hes]
    | none =>
      have hjoin2 := gap_join content st p hes hlp hjoin
      refine ⟨?_, ?_, ?_, ?_⟩
      · simp [loadStep, hes]
      · have hcu2 : cutOf (loadStep pf content st (Tok4.entClose, p))
            = p + (tokStr Tok4.entClose).length := by
          simp [loadStep, hes, cutOf]
        have hfseq : (loadStep pf content st (Tok4.entClose, p)).fseq
            = (if st.last_pos < p then
                st.fseq ++ [SeqItem.txt (pySliceN content st.last_pos p)]
              else st.fseq) ++ [SeqItem.txt entCloseS] := by
          simp [loadStep, hes]
        rw [hfseq, hcu2, joinSeq_append, hjoin2]
        have h2 : itemChars (SeqItem.txt entCloseS) = entCloseS := rfl
        rw [h2, ← htok2]
      · simp [loadStep, hes, cutOf]
      · simp [loadStep, hes]
  | childClose =>
    have hes := hnc rfl
    have htok2 : content.take (p + (tokStr Tok4.childClose).length)
        = content.take p ++ childCloseS := htok
    have hjoin2 := gap_join content st p hes hlp hjoin
    refine ⟨?_, ?_, ?_, ?_⟩
    · simp [loadStep, hes]
    · have hcu2 : cutOf (loadStep pf content st (Tok4.childClose, p))
          = p + (tokStr Tok4.childClose).length := by
        simp [loadStep, hes, cutOf]
      have hfseq : (loadStep pf content st (Tok4.childClose, p)).fseq
          = (if st.last_pos < p then
              st.fseq ++ [SeqItem.txt (pySliceN content st.last_pos p)]
            else st.fseq) ++ [SeqItem.txt childCloseS] := by
        simp [loadStep, hes]
      rw [hfseq, hcu2, joinSeq_append, hjoin2]
      have h2 : itemChars (SeqItem.txt childCloseS) = childCloseS := rfl
      rw [h2, ← htok2]
    · simp [loadStep, hes, cutOf]
    · simp [loadStep, hes]

theorem opt_none_of_isSome_false {A : Type} (o : Option A)
    (h : o.isSome = false) : o = none := by
  cases o with
  | none => rfl
  | some a => simp at h

theorem nested_head (t : Tok4) (p : Nat) (ms : List (Tok4 × Nat))
    (recFlag : Bool) (h : nestedOkGo ((t, p) :: ms) recFlag = true) :
    (t = Tok4.entOpen → recFlag = false) ∧
    (t = Tok4.childClose → recFlag = false) ∧
    nestedOkGo ms (if t = Tok4.entOpen then true else false) = true := by
  cases t <;> simp [nestedOkGo] at h ⊢ <;> tauto

theorem load_loop_done (content : S) (p : Nat) (st : LoadSt)
    (hp : p ≤ content.length) (hlp : st.last_pos ≤ p)
    (hjoin : joinSeq st.fseq = content.take (cutOf st))
    (hnest : (!st.entity_start.isSome) = true) :
    st.entity_start = none ∧
    joinSeq st.fseq = content.take st.last_pos ∧
    st.last_pos ≤ content.length := by
  have hsome : st.entity_start.isSome = false := by simpa using hnest
  have hnone := opt_none_of_isSome_false _ hsome
  refine ⟨hnone, ?_, by omega⟩
  rw [hjoin]
  congr 1
  simp [cutOf, hnone]

theorem load_loop_invariant (pf : S → ℚ) (content : S) :
    ∀ (fuel : Nat) (s : S) (p : Nat) (st : LoadSt),
      content.drop p = s → s.length ≤ fuel → p ≤ content.length →
      st.last_pos ≤ p →
      joinSeq st.fseq = content.take (cutOf st) →
      cutOf st ≤ st.last_pos →
      nestedOkGo (tokenScanF fuel s p) st.entity_start.isSome = true →
      ((tokenScanF fuel s p).foldl (loadStep pf content) st).entity_start = none ∧
      joinSeq ((tokenScanF fuel s p).foldl (loadStep pf content) st).fseq
        = content.take
            (((tokenScanF fuel s p).foldl (loadStep pf content) st).last_pos) ∧
      ((tokenScanF fuel s p).foldl (loadStep pf content) st).last_pos
        ≤ content.length := by
  intro fuel
  induction fuel with
  | zero =>
    intro s p st hdrop hfuel hp hlp hjoin hcut hnest
    simp only [tokenScanF] at hnest ⊢
    rw [List.foldl_nil]
    unfold nestedOkGo at hnest
    exact load_loop_done content p st hp hlp hjoin hnest
  | succ n ih =>
    intro s p st hdrop hfuel hp hlp hjoin hcut hnest
    cases s with
    | nil =>
      simp only [tokenScanF] at hnest ⊢
      rw [List.foldl_nil]
      unfold nestedOkGo at hnest
      exact load_loop_done content p st hp hlp hjoin hnest
    | cons c cs =>
      cases hmt : matchTok (c :: cs) with
      | none =>
        rw [show tokenScanF (n + 1) (c :: cs) p = tokenScanF n cs (p + 1) from by
          simp [tokenScanF, hmt]] at hnest ⊢
        have hdrop2 : content.drop (p + 1) = cs := by
          have h1 := drop_add_of_drop content p 1 (c :: cs) hdrop
          simpa using h1
        have hfuel2 : cs.length ≤ n := by
          simp at hfuel
          omega
        have hp2 : p + 1 ≤ content.length := drop_cons_lt content p c cs hdrop
        exact ih cs (p + 1) st hdrop2 hfuel2 hp2 (by omega) hjoin hcut hnest
      | some t =>
        rw [show tokenScanF (n + 1) (c :: cs) p
            = (t, p) :: tokenScanF n ((c :: cs).drop (tokStr t).length)
                (p + (tokStr t).length) from by
          simp [tokenScanF, hmt]] at hnest ⊢
        rw [List.foldl_cons]
        obtain ⟨hno1, hnc1, hnest2⟩ := nested_head t p _ _ hnest
        have hpre := matchTok_spec _ _ hmt
        have htok := token_slice content (c :: cs) p t hdrop hpre
        have hno : t = Tok4.entOpen → st.entity_start = none :=
          fun ht => opt_none_of_isSome_false _ (hno1 ht)
        have hnc : t = Tok4.childClose → st.entity_start = none :=
          fun ht => opt_none_of_isSome_false _ (hnc1 ht)
        obtain ⟨hl1, hj1, hc1, he1⟩ :=
          loadStep_invariant pf content st t p htok hlp hjoin hcut hno hnc
        have hplen : p + (tokStr t).length ≤ content.length := by
          obtain ⟨r, hr⟩ := (isPrefixOf_exists (tokStr t) (c :: cs)).mp hpre
          have h1 : (tokStr t).length ≤ (c :: cs).length := by
            rw [← hr]
            simp
          have h2 : (c :: cs).length = content.length - p := by
            rw [← hdrop, List.length_drop]
          have h3 : p < content.length := drop_cons_lt content p c cs hdrop
          omega
        have hdrop2 : content.drop (p + (tokStr t).length)
            = (c :: cs).drop (tokStr t).length :=
          drop_add_of_drop content p _ _ hdrop
        have hfuel2 : ((c :: cs).drop (tokStr t).length).length ≤ n := by
          have h1 := tokStr_len_pos t
          simp at hfuel
          simp [List.length_drop]
          omega
        have hflag : (loadStep pf content st (t, p)).entity_start.isSome
            = (if t = Tok4.entOpen then true else false) := by
          rw [he1]
          split <;> rfl
        have hnest3 : nestedOkGo
            (tokenScanF n ((c :: cs).drop (tokStr t).length) (p + (tokStr t).length))
            (loadStep pf content st (t, p)).entity_start.isSome = true := by
          rw [hflag]
          exact hnest2
        exact ih ((c :: cs).drop (tokStr t).length) (p + (tokStr t).length)
          (loadStep pf content st (t, p)) hdrop2 hfuel2 hplen
          (le_of_eq hl1) hj1 hc1 hnest3

/-- C4: for every map file content whose <entity>/<child> tokens are
properly nested for the scanner (wellNested: no <entity> and no </child>
while an entity record is being recorded, and recording finished at the
end), loading with load_file and immediately saving with save_map_file
reproduces the original content character for character, for every float
parser. -/
theorem c4_load_save_roundtrip (pf : S → ℚ) (content : S)
    (h : wellNested content = true) :
    save_map_file (load_file pf content) = content := by
  unfold wellNested tokenScan at h
  obtain ⟨hnone, hjoin, hle⟩ := load_loop_invariant pf content content.length
    content 0
    { last_pos := 0, entity_start := none, fseq := [], ents := [], pstack := [] }
    (List.drop_zero content) (le_refl _) (Nat.zero_le _) (le_refl _) rfl (le_refl _) h
  unfold save_map_file load_file tokenScan
  simp only []
  by_cases hlt : ((tokenScanF content.length content 0).foldl (loadStep pf content)
      { last_pos := 0, entity_start := none, fseq := [], ents := [],
        pstack := [] }).last_pos < content.length
  · rw [if_pos hlt, joinSeq_append, hjoin]
    exact List.take_append_drop _ content
  · rw [if_neg hlt, hjoin]
    have hx : ((tokenScanF content.length content 0).foldl (loadStep pf content)
        { last_pos := 0, entity_start := none, fseq := [], ents := [],
          pstack := [] }).last_pos = content.length := by omega
    rw [hx, List.take_length]

theorem c4_load_save_roundtrip_witness :
    wellNested (("pre <entity><index> 12 </index><posi> 1 2 3 </posi><child><entity><index> 7 </index></entity></child></entity> post").toList) = true ∧
    save_map_file (load_file (fun _ => 0)
        (("pre <entity><index> 12 </index><posi> 1 2 3 </posi><child><entity><index> 7 </index></entity></child></entity> post").toList))
      = ("pre <entity><index> 12 </index><posi> 1 2 3 </posi><child><entity><index> 7 </index></entity></child></entity> post").toList :=
  ⟨by decide,
   c4_load_save_roundtrip (fun _ => 0)
     (("pre <entity><index> 12 </index><posi> 1 2 3 </posi><child><entity><index> 7 </index></entity></child></entity> post").toList)
     (by decide)⟩
